import Mathlib

/-!
Shallow embedding of the job-state reconciliation engine of the
paracrawl-dashboard repository (src/dashboard.py, src/web.py).

Python dictionaries holding job fields are modelled as ordered association
lists of string keys and a small value type; Python exceptions are modelled
with the Except monad; datetime timestamps are modelled as naturals.
Each definition is translated directly from the corresponding function in
src/dashboard.py.
-/

set_option maxHeartbeats 1000000

/-- Values stored in a job record: strings, Python ints (task ids stored by
the live-listing array expansion), the Command argument tuple, and Python
None (stored by the accounting adapter for collapsed single-task brackets). -/
inductive Value where
  | str (s : String)
  | int (n : Nat)
  | args (l : List String)
  | none
deriving DecidableEq, Repr

/-- A Python dict of job fields, as an ordered association list.
Real dicts have unique keys; theorems that need this carry it as a
Nodup hypothesis on the mapped keys. -/
abbrev Dict := List (String × Value)

/-- First-occurrence lookup, the semantics of Python dict indexing
(on a dict built with unique keys). -/
def dget? : Dict → String → Option Value
  | [], _ => Option.none
  | e :: rest, k => if e.1 = k then some e.2 else dget? rest k

/-- Keys of a dict, in order. -/
def dkeys (d : Dict) : List String := d.map (fun e => e.1)

/-- Python dict item assignment: an existing key is updated in place,
a new key is appended at the end. -/
def dinsert (d : Dict) (k : String) (v : Value) : Dict :=
  if dget? d k = Option.none then d ++ [(k, v)]
  else d.map (fun e => if e.1 = k then (k, v) else e)

/-- Build a dict from a pair sequence, later pairs overriding earlier ones:
the semantics of Python dict(zip(headers, fields)) with duplicate headers. -/
def dictOfPairs (ps : List (String × Value)) : Dict :=
  ps.foldl (fun d kv => dinsert d kv.1 kv.2) []

/-- The Python dict union comprehension, as in the expression
written with double-star current then double-star job in JobList.update:
keys of the current record keep their position, the draft overrides the
values of keys it defines, and keys only in the draft are appended. -/
def dunion (current job : Dict) : Dict :=
  current.map (fun e =>
    match dget? job e.1 with
    | some v => (e.1, v)
    | Option.none => e)
  ++ job.filter (fun e => dget? current e.1 = Option.none)

/-- Boolean membership of an item in a dict item list. -/
def dmem (kv : String × Value) : Dict → Bool
  | [] => false
  | e :: rest => if e = kv then true else dmem kv rest

/-- The update test of JobList.update in src/dashboard.py line 325:
truthiness of the set difference between the draft items and the current
items (the draft defines some key-value pair the current record lacks). -/
def changed (current job : Dict) : Bool :=
  job.any (fun kv => !(dmem kv current))

/-- The validation in the Job constructor (src/dashboard.py lines 36-37):
building a Job whose ArrayTaskId field is the string N/A raises ValueError. -/
def jobCheck (d : Dict) : Except String Dict :=
  if dget? d "ArrayTaskId" = some (.str "N/A") then
    .error "ValueError: ArrayTaskId is N/A"
  else .ok d

/-- Reading the JobId field of a draft, as Python job bracket JobId:
a missing key raises KeyError (non-string JobId never occurs in this code;
we flag it as a type error). -/
def getJobId (d : Dict) : Except String String :=
  match dget? d "JobId" with
  | some (.str id) => .ok id
  | some _ => .error "TypeError: JobId is not a string"
  | Option.none => .error "KeyError: JobId"

/-- The string JobIds of a list of drafts (the ids collected into
seen_jobs by add_jobs_to_set, src/dashboard.py lines 352-355). -/
def jobIdsOf (jobs : List Dict) : List String :=
  jobs.filterMap (fun j =>
    match dget? j "JobId" with
    | some (.str id) => some id
    | _ => Option.none)

/-- The long-lived keyed job table (class JobList, src/dashboard.py
lines 312-349): a Python dict from JobId to a pair of the job record and
its last-changed timestamp (None until a timestamped merge touches it). -/
structure JobList where
  entries : List (String × Dict × Option Nat)
deriving DecidableEq, Repr

/-- First entry with the given id in an entry list. -/
def entriesLookup? : List (String × Dict × Option Nat) → String → Option (Dict × Option Nat)
  | [], _ => Option.none
  | e :: rest, id => if e.1 = id then some e.2 else entriesLookup? rest id

/-- First entry with the given id (Python dict lookup on self.jobs). -/
def JobList.lookup? (jl : JobList) (id : String) : Option (Dict × Option Nat) :=
  entriesLookup? jl.entries id

/-- Replace the entry with the given id in place (Python dict assignment
to an existing key keeps its position). -/
def JobList.setEntry (jl : JobList) (id : String) (v : Dict × Option Nat) : JobList :=
  ⟨jl.entries.map (fun e => if e.1 = id then (id, v) else e)⟩

/-- Append a fresh entry (Python dict assignment to a new key). -/
def JobList.insertEntry (jl : JobList) (id : String) (v : Dict × Option Nat) : JobList :=
  ⟨jl.entries ++ [(id, v)]⟩

/-- The timestamp conditional of JobList.update (src/dashboard.py
line 326): keep the current timestamp when the draft carries none,
otherwise take the draft timestamp. -/
def mergeTimestamp (job_timestamp current_timestamp : Option Nat) : Option Nat :=
  match job_timestamp with
  | Option.none => current_timestamp
  | some t => some t

/-- The merge of one draft into the table: the loop body of JobList.update
(src/dashboard.py lines 322-328).  If the id exists and the draft defines
some item the current record lacks, store the union rebuilt through the Job
constructor with the draft timestamp (keeping the current timestamp when the
draft carries none); if nothing changed, leave the entry untouched; a new id
is inserted as given. -/
def JobList.update1 (jl : JobList) (job : Dict) (job_timestamp : Option Nat) :
    Except String JobList := do
  let id ← getJobId job
  match jl.lookup? id with
  | some (current, current_timestamp) =>
    if changed current job = true then do
      let merged ← jobCheck (dunion current job)
      .ok (jl.setEntry id (merged, mergeTimestamp job_timestamp current_timestamp))
    else .ok jl
  | Option.none => .ok (jl.insertEntry id (job, job_timestamp))

/-- JobList.update over a sequence of drafts paired with their timestamps
(the for loop of src/dashboard.py lines 322-328). -/
def JobList.update (jl : JobList) : List (Dict × Option Nat) → Except String JobList
  | [] => .ok jl
  | (j, t) :: rest => do
    let jl' ← jl.update1 j t
    jl'.update rest

/-- Calling update with a plain job sequence and one timestamp argument
(the generator branch of src/dashboard.py line 320). -/
def JobList.updateWith (jl : JobList) (jobs : List Dict) (timestamp : Option Nat) :
    Except String JobList :=
  jl.update (jobs.map (fun j => (j, timestamp)))

/-- Calling update with another JobList (src/dashboard.py lines 317-320):
with no timestamp the per-entry timestamps travel along; with a timestamp
the argument is iterated as plain jobs, all receiving that timestamp. -/
def JobList.updateFromList (jl : JobList) (other : JobList) (timestamp : Option Nat) :
    Except String JobList :=
  match timestamp with
  | Option.none => jl.update (other.entries.map (fun e => (e.2.1, e.2.2)))
  | some t => jl.update (other.entries.map (fun e => (e.2.1, some t)))

/-- JobList.filter (src/dashboard.py lines 336-343): predicate-filtered
copy; with no timestamp argument each entry keeps its own timestamp,
otherwise all kept entries receive the given one. -/
def JobList.filter (jl : JobList) (op : Dict → Bool) (timestamp : Option Nat) : JobList :=
  ⟨(jl.entries.filter (fun e => op e.2.1)).map (fun e =>
    (e.1, e.2.1, match timestamp with | Option.none => e.2.2 | some t => some t))⟩

/-- JobList.get (src/dashboard.py lines 345-346): plain dict indexing,
so an absent id raises KeyError. -/
def JobList.get (jl : JobList) (job_id : String) : Except String Dict :=
  match jl.lookup? job_id with
  | some (job, _) => .ok job
  | Option.none => .error "KeyError"

/-- JobList.job_ids (src/dashboard.py lines 348-349). -/
def JobList.job_ids (jl : JobList) : List String :=
  jl.entries.map (fun e => e.1)

/-- The terminal states (State.STALE_STATES, src/dashboard.py lines 359-364). -/
def STALE_STATES : List Value :=
  [.str "COMPLETED", .str "CANCELLED", .str "FAILED", .str "TIMEOUT"]

/-- The active-job predicate of State.update (src/dashboard.py line 372):
no State field yet, or a State outside STALE_STATES. -/
def isActiveJob (j : Dict) : Bool :=
  match dget? j "State" with
  | Option.none => true
  | some v => !(STALE_STATES.contains v)

/-- The synthesized cancellation record of State.update (src/dashboard.py
line 388). -/
def cancelledDraft (id : String) : Dict :=
  [("JobId", .str id), ("State", .str "CANCELLED")]

/-- The dead-job synthesis of State.update (src/dashboard.py lines 387-391):
for every job of the scratch table whose id was not seen this cycle,
a draft with only the JobId and a CANCELLED State. -/
def deadJobs (scratch : JobList) (seen : List String) : List Dict :=
  scratch.entries.filterMap (fun e =>
    match dget? e.2.1 "JobId" with
    | some (.str id) =>
      if id ∈ seen then Option.none
      else some (cancelledDraft id)
    | _ => Option.none)

/-- The reconciliation engine state (class State, src/dashboard.py
lines 358-403): one long-lived JobList and the last refresh time. -/
structure State where
  last_update : Nat
  jobs : JobList
deriving DecidableEq, Repr

/-- State.update (src/dashboard.py lines 370-400), the refresh cycle.
The three sources are passed as the finite draft sequences their generators
yield: the submission log and the live listing as Except values (a failed
external tool is an error before anything is yielded), the accounting source
as a function of the id scope it is invoked with, because the code passes
the scratch table's ids to it.  Returns the new engine state and the
scratch table of jobs touched this cycle. -/
def State.update (st : State)
    (scheduledSrc : Except String (List Dict))
    (accountingSrc : List String → Except String (List Dict))
    (liveSrc : Except String (List Dict))
    (now : Nat) : Except String (State × JobList) := do
  let active0 := st.jobs.filter isActiveJob Option.none
  let scheduled ← scheduledSrc
  let seen1 := jobIdsOf scheduled
  let active1 ← active0.updateWith scheduled Option.none
  let accounting ← accountingSrc active1.job_ids
  let seen2 := seen1 ++ jobIdsOf accounting
  let active2 ← active1.updateWith accounting Option.none
  let live ← liveSrc
  let seen3 := seen2 ++ jobIdsOf live
  let active3 ← active2.updateWith live Option.none
  let active4 ← active3.updateWith (deadJobs active3 seen3) Option.none
  let jobs' ← st.jobs.updateFromList active4 (some now)
  .ok ({ last_update := now, jobs := jobs' }, active4)

/-- State.get_job (src/dashboard.py lines 402-403). -/
def State.get_job (st : State) (job_id : String) : Except String Dict :=
  st.jobs.get job_id

/-- Python str.split on a single separator character: always at least one
piece, empty pieces preserved. -/
def splitOnChar (sep : Char) : List Char → List (List Char)
  | [] => [[]]
  | c :: rest =>
    match splitOnChar sep rest with
    | acc :: accs => if c = sep then [] :: acc :: accs else (c :: acc) :: accs
    | [] => [[]]

/-- String version of splitOnChar. -/
def pySplit (sep : Char) (s : String) : List String :=
  (splitOnChar sep s.data).map (fun l => ⟨l⟩)

/-- The whitespace stripped by Python str.strip with no argument
(restricted to the characters that occur in this code's inputs). -/
def isPyWS (c : Char) : Bool :=
  c = ' ' ∨ c = '\t' ∨ c = '\n' ∨ c = '\r'

/-- Python str.strip with no argument. -/
def pyStrip (s : String) : String :=
  ⟨((s.data.dropWhile isPyWS).reverse.dropWhile isPyWS).reverse⟩

/-- Python str.replace for a two-character pattern (the job-id and task-id
macros of this code are the two-character sequences percent-A and
percent-a): all non-overlapping occurrences, left to right. -/
def replaceTwo (p1 p2 : Char) (rep : List Char) : List Char → List Char
  | [] => []
  | [c] => [c]
  | c1 :: c2 :: rest =>
    if c1 = p1 ∧ c2 = p2 then rep ++ replaceTwo p1 p2 rep rest
    else c1 :: replaceTwo p1 p2 rep (c2 :: rest)

/-- String version of replaceTwo; a pattern that is not two characters
never occurs in this code. -/
def pyReplace (s pat rep : String) : String :=
  match pat.data with
  | [p1, p2] => ⟨replaceTwo p1 p2 rep.data s.data⟩
  | _ => s

/-- Python int applied to a decimal string (nonnegative in all uses here):
surrounding whitespace stripped, then all characters must be digits. -/
def pyInt (s : String) : Except String Nat :=
  let t := (pyStrip s).data
  if t ≠ [] ∧ t.all Char.isDigit then
    .ok (t.foldl (fun a c => a * 10 + (c.toNat - 48)) 0)
  else .error "ValueError: invalid literal for int"

/-- Python str.format of one value (only strings and ints are formatted
in this code). -/
def fmtValue : Value → String
  | .str s => s
  | .int n => toString n
  | .args l => String.intercalate " " l
  | .none => "None"

example : pySplit '|' "a|b||c" = ["a", "b", "", "c"] := rfl
example : pyStrip "  a b\t" = "a b" := rfl
example : pyReplace "x_%A_%A" "%A" "17" = "x_17_17" := rfl
example : pyInt "042" = .ok 42 := rfl

/-- The step alternatives of the first JobName pattern of Job constructor
(src/dashboard.py line 29), in regex alternation order; note the trailing
empty alternative in the source pattern. -/
def stepAlternatives : List String :=
  ["shard", "merge-shard", "clean-shard", "dedupe", "split", "translate",
   "tokenise", "align", "fix", "score", "clean", ""]

/-- The alternatives of the second JobName pattern (src/dashboard.py
line 31). -/
def reduceAlternatives : List String :=
  ["reduce-tmx", "reduce-tmx-deferred", "reduce-classified", "reduce-filtered"]

/-- The alternatives of the third JobName pattern (src/dashboard.py
line 33). -/
def collectionStepAlternatives : List String := ["warc2text", "pdf2warc"]

/-- The character class of collection names in the source patterns:
lowercase letters, digits and dashes. -/
def isCollChar (c : Char) : Bool :=
  c.isLower ∨ c.isDigit ∨ c = '-'

/-- The collection sub-language of the source patterns: one or more
lowercase letters followed by any characters of the collection class
(equivalently: nonempty, starting with a lowercase letter, all characters
in the class), anchored to the end of the name. -/
def isCollectionName (l : List Char) : Bool :=
  match l with
  | [] => false
  | c :: rest => c.isLower ∧ rest.all isCollChar

/-- Matching the first JobName pattern: an ordered-alternation step name,
a dash, a two-letter language, a dash, and a collection name; regex
alternation tries the step alternatives left to right. -/
def matchStepLangColl (name : String) : Option (String × String × String) :=
  stepAlternatives.findSome? (fun alt =>
    if (alt ++ "-").data.isPrefixOf name.data then
      match name.data.drop (alt.length + 1) with
      | a :: b :: '-' :: cs =>
        if a.isLower ∧ b.isLower ∧ isCollectionName cs then
          some (alt, ⟨[a, b]⟩, ⟨cs⟩)
        else Option.none
      | _ => Option.none
    else Option.none)

/-- Matching the second JobName pattern: a reduce step, a dash and a
two-letter language, anchored at both ends. -/
def matchReduceLang (name : String) : Option (String × String) :=
  reduceAlternatives.findSome? (fun alt =>
    if (alt ++ "-").data.isPrefixOf name.data then
      match name.data.drop (alt.length + 1) with
      | [a, b] => if a.isLower ∧ b.isLower then some (alt, ⟨[a, b]⟩) else Option.none
      | _ => Option.none
    else Option.none)

/-- Matching the third JobName pattern: a conversion step, a dash and a
collection name. -/
def matchStepColl (name : String) : Option (String × String) :=
  collectionStepAlternatives.findSome? (fun alt =>
    if (alt ++ "-").data.isPrefixOf name.data then
      let cs := name.data.drop (alt.length + 1)
      if isCollectionName cs then some (alt, ⟨cs⟩) else Option.none
    else Option.none)

/-- The derived classification attributes set by the Job constructor. -/
structure Classified where
  step : String
  language : Option String
  collection : Option String
deriving DecidableEq, Repr

/-- The name-based classification of the Job constructor (src/dashboard.py
lines 28-34): the three patterns are tried in order on the JobName field;
the attributes are set only when the field exists and a pattern matches. -/
def classify (d : Dict) : Option Classified :=
  match dget? d "JobName" with
  | some (.str name) =>
    match matchStepLangColl name with
    | some (s, l, c) => some ⟨s, some l, some c⟩
    | Option.none =>
      match matchReduceLang name with
      | some (s, l) => some ⟨s, some l, Option.none⟩
      | Option.none =>
        match matchStepColl name with
        | some (s, c) => some ⟨s, Option.none, some c⟩
        | Option.none => Option.none
  | _ => Option.none

example : classify [("JobName", .str "clean-shard-en-wide00015")]
    = some ⟨"clean-shard", some "en", some "wide00015"⟩ := rfl
example : classify [("JobName", .str "reduce-tmx-deferred-en")]
    = some ⟨"reduce-tmx-deferred", some "en", Option.none⟩ := rfl
example : classify [("JobName", .str "reduce-tmx-de")]
    = some ⟨"reduce-tmx", some "de", Option.none⟩ := rfl
example : classify [("JobName", .str "warc2text-wide00016")]
    = some ⟨"warc2text", Option.none, some "wide00016"⟩ := rfl
example : classify [("JobName", .str "somethingelse")] = Option.none := rfl
example : classify [("JobId", .str "1")] = Option.none := rfl

/-- The delta selection of the jobs route (src/dashboard.py lines 455-473):
an entry is serialized exactly when its stored timestamp is strictly newer
than the request timestamp and the job carries the derived language and
collection attributes (hasattr on both; the constructor sets the three
classification attributes together, exactly when a pattern matched). -/
def list_jobs_delta (jl : JobList) (since : Nat) : List Dict :=
  jl.entries.filterMap (fun e =>
    match e.2.2 with
    | some t =>
      if since < t ∧ (classify e.2.1).isSome then some e.2.1 else Option.none
    | Option.none => Option.none)

/-- parse_job_arrays (src/dashboard.py lines 216-224): a comma-separated
sequence of task ids and dash ranges, a range end optionally carrying a
percent-suffixed concurrency limit that is stripped; int parsing of a
malformed piece raises ValueError. -/
def parse_job_arrays (job_arrays : String) : Except String (List Nat) :=
  (pySplit ',' job_arrays).foldlM (fun acc job_array => do
    if job_array.data.contains '-' then
      match splitOnChar '-' job_array.data with
      | start :: endRest =>
        let endStr : List Char := (String.intercalate "-" (endRest.map (fun l => ⟨l⟩))).data
        let endStr := if endStr.contains '%' then endStr.takeWhile (fun c => c ≠ '%') else endStr
        let s ← pyInt ⟨start⟩
        let e ← pyInt ⟨endStr⟩
        .ok (acc ++ List.range' s (e + 1 - s))
      | [] => .error "ValueError: invalid literal for int"
    else do
      let n ← pyInt job_array
      .ok (acc ++ [n])) []

example : parse_job_arrays "1-3" = .ok [1, 2, 3] := rfl
example : parse_job_arrays "4,7-9,12" = .ok [4, 7, 8, 9, 12] := rfl
example : parse_job_arrays "1-8%2" = .ok [1, 2, 3, 4, 5, 6, 7, 8] := rfl
example : parse_job_arrays "3-1" = .ok [] := rfl

/-- Splitting a long option of the shape dash-dash-name equals value at the
first usable equals sign: the non-greedy groups of the pattern in
normalize_cli_args (src/dashboard.py line 228) require at least one
character between the leading dashes and the equals sign and at least one
character after it. -/
def splitLongOpt : List Char → Option (List Char × List Char)
  | [] => Option.none
  | '=' :: q => if q = [] then Option.none else some ([], q)
  | c :: rest => (splitLongOpt rest).map (fun p => (c :: p.1, p.2))

/-- normalize_cli_args (src/dashboard.py lines 226-233): a long option
written with an equals sign is split into the option and its value; all
other arguments pass through unchanged. -/
def normalize_cli_args (args : List String) : List String :=
  args.flatMap (fun arg =>
    match arg.data with
    | '-' :: '-' :: c :: cs =>
      match splitLongOpt cs with
      | some (pre, post) => [⟨'-' :: '-' :: c :: pre⟩, ⟨post⟩]
      | Option.none => [arg]
    | _ => [arg])

example : normalize_cli_args ["--time=1:00", "-J", "x", "--a=b=c"]
    = ["--time", "1:00", "-J", "x", "--a", "b=c"] := rfl
example : normalize_cli_args ["--=x", "--x="] = ["--=x", "--x="] := rfl

/-- The flag scanner loop of jobs_from_cli_args (src/dashboard.py
lines 236-268) over the normalized argument iterator: known options record
their value in the draft, the array spec is remembered aside, a bare word
consumes the rest of the iterator as the Command tuple, an unknown flag
raises ValueError, and a flag missing its value exhausts the iterator. -/
def scan_cli_args (job : Dict) (job_array : Option String) :
    List String → Except String (Dict × Option String)
  | [] => .ok (job, job_array)
  | arg :: rest =>
    if arg = "--parsable" ∨ arg = "--verbose" ∨ arg = "--exclusive" then
      scan_cli_args job job_array rest
    else if arg = "--nice" ∨ arg = "--mem-per-cpu" ∨ arg = "--export" then
      match rest with
      | [] => .error "StopIteration"
      | _ :: rest' => scan_cli_args job job_array rest'
    else if arg = "--dependency" ∨ arg = "-d" then
      match rest with
      | [] => .error "StopIteration"
      | v :: rest' => scan_cli_args (dinsert job "Dependency" (.str v)) job_array rest'
    else if arg = "--ntasks" ∨ arg = "-n" then
      match rest with
      | [] => .error "StopIteration"
      | v :: rest' => scan_cli_args (dinsert job "NumTasks" (.str v)) job_array rest'
    else if arg = "--nodes" ∨ arg = "-N" then
      match rest with
      | [] => .error "StopIteration"
      | v :: rest' => scan_cli_args (dinsert job "NumNodes" (.str v)) job_array rest'
    else if arg = "--account" ∨ arg = "-A" then
      match rest with
      | [] => .error "StopIteration"
      | v :: rest' => scan_cli_args (dinsert job "Account" (.str v)) job_array rest'
    else if arg = "--partition" ∨ arg = "-p" then
      match rest with
      | [] => .error "StopIteration"
      | v :: rest' => scan_cli_args (dinsert job "Partition" (.str v)) job_array rest'
    else if arg = "-J" then
      match rest with
      | [] => .error "StopIteration"
      | v :: rest' => scan_cli_args (dinsert job "JobName" (.str v)) job_array rest'
    else if arg = "-a" ∨ arg = "--array" then
      match rest with
      | [] => .error "StopIteration"
      | v :: rest' => scan_cli_args job (some v) rest'
    else if arg = "--time" then
      match rest with
      | [] => .error "StopIteration"
      | v :: rest' => scan_cli_args (dinsert job "TimeLimit" (.str v)) job_array rest'
    else if arg = "--cpus-per-task" then
      match rest with
      | [] => .error "StopIteration"
      | v :: rest' => scan_cli_args (dinsert job "NumCPUs" (.str v)) job_array rest'
    else if arg = "-e" then
      match rest with
      | [] => .error "StopIteration"
      | v :: rest' => scan_cli_args (dinsert job "StdErr" (.str v)) job_array rest'
    else if arg = "-o" then
      match rest with
      | [] => .error "StopIteration"
      | v :: rest' => scan_cli_args (dinsert job "StdOut" (.str v)) job_array rest'
    else
      match arg.data with
      | [] => .error "IndexError"
      | c :: _ =>
        if c ≠ '-' then .ok (dinsert job "Command" (.args rest), job_array)
        else .error "ValueError: Cannot parse arg"

/-- Reading an optional string field with a default, as the Python
expression job.get applied to a path key with an empty default, used as a
str.replace receiver (a non-string value would raise TypeError). -/
def pyGetStrD (d : Dict) (k : String) (default : String) : Except String String :=
  match dget? d k with
  | Option.none => .ok default
  | some (.str s) => .ok s
  | some _ => .error "TypeError"

/-- The overriding fields of the per-task Job of the array branch of
jobs_from_cli_args (src/dashboard.py lines 279-284): composite id, array
fields, and the two path templates with both macros substituted. -/
def arrayPatch (jidv : Value) (jidStr so se : String) (t : Nat) : Dict :=
  [("JobId", .str (fmtValue jidv ++ "_" ++ toString t)),
   ("ArrayJobId", jidv),
   ("ArrayTaskId", .str (toString t)),
   ("StdOut", .str (pyReplace (pyReplace so "%A" jidStr) "%a" (toString t))),
   ("StdErr", .str (pyReplace (pyReplace se "%A" jidStr) "%a" (toString t)))]

/-- The per-task Job of the array branch of jobs_from_cli_args
(src/dashboard.py lines 277-285). -/
def expandOne (job : Dict) (t : Nat) : Except String Dict := do
  let jidv ← match dget? job "JobId" with
    | some v => .ok v
    | Option.none => .error "KeyError: JobId"
  let jidStr ← match jidv with
    | .str s => .ok s
    | _ => .error "TypeError"
  let so ← pyGetStrD job "StdOut" ""
  let se ← pyGetStrD job "StdErr" ""
  jobCheck (dunion job (arrayPatch jidv jidStr so se t))

/-- The array branch loop of jobs_from_cli_args. -/
def expandArrayJobs (job : Dict) : List Nat → Except String (List Dict)
  | [] => .ok []
  | t :: ts => do
    let j ← expandOne job t
    let rest ← expandArrayJobs job ts
    .ok (j :: rest)

/-- jobs_from_cli_args (src/dashboard.py lines 235-285): scan the
normalized arguments, then yield either the single bare-id Job (note the
source sets both StdOut and StdErr from the StdOut template on lines
273-274) or one Job per array task id. -/
def jobs_from_cli_args (job : Dict) (args : List String) :
    Except String (List Dict) := do
  let (job, job_array) ← scan_cli_args job Option.none (normalize_cli_args args)
  if (job_array.getD "").isEmpty then do
    let jidv ← match dget? job "JobId" with
      | some v => .ok v
      | Option.none => .error "KeyError: JobId"
    let jidStr ← match jidv with
      | .str s => .ok s
      | _ => .error "TypeError"
    let so ← pyGetStrD job "StdOut" ""
    let j ← jobCheck (dunion job [
      ("StdOut", .str (pyReplace so "%A" jidStr)),
      ("StdErr", .str (pyReplace so "%A" jidStr))])
    .ok [j]
  else do
    let tasks ← parse_job_arrays (job_array.getD "")
    expandArrayJobs job tasks

example : jobs_from_cli_args [("JobId", .str "9")] ["-J", "fix-en-x", "batch.sh", "arg"]
    = .ok [[("JobId", .str "9"), ("JobName", .str "fix-en-x"),
            ("Command", .args ["arg"]), ("StdOut", .str ""), ("StdErr", .str "")]] := rfl

/-- The header renaming of the live listing (src/dashboard.py
lines 74-83). -/
def squeueHeaderMap (h : String) : String :=
  if h = "JOBID" then "JobId"
  else if h = "NAME" then "JobName"
  else if h = "STATE" then "State"
  else if h = "ARRAY_TASK_ID" then "ArrayTaskId"
  else if h = "ARRAY_JOB_ID" then "ArrayJobId"
  else if h = "TIME" then "Elapsed"
  else if h = "REASON" then "Reason"
  else h

/-- One data row of the live listing as a dict: Python
dict(zip(headers, line.strip().split(pipe))), later duplicate headers
overriding earlier ones and extra fields dropped by zip. -/
def rowDict (headers : List String) (line : String) : Dict :=
  dictOfPairs (headers.zip ((pySplit '|' (pyStrip line)).map Value.str))

/-- One row of Slurm.current_jobs (src/dashboard.py lines 84-95).
An ArrayTaskId of N/A yields the job stripped of its array fields; a
dash in the ArrayTaskId expands the still-pending array range into one
composite-id Job per task (the task id stored as a Python int); any other
ArrayTaskId yields one composite-id Job; a row whose dict lacks an
ArrayTaskId raises KeyError at the first branch test, aborting the
generator. -/
def current_jobs_row (headers : List String) (line : String) :
    Except String (List Dict) := do
  let job := rowDict headers line
  match dget? job "ArrayTaskId" with
  | Option.none => .error "KeyError: ArrayTaskId"
  | some ati =>
    if ati = .str "N/A" then do
      let j ← jobCheck (job.filter (fun e =>
        ¬(e.1 = "ArrayJobId" ∨ e.1 = "ArrayTaskId")))
      .ok [j]
    else
      match ati with
      | .str s =>
        if s.data.contains '-' then do
          let ajidv ← match dget? job "ArrayJobId" with
            | some v => .ok v
            | Option.none => .error "KeyError: ArrayJobId"
          let tasks ← parse_job_arrays s
          tasks.foldlM (fun acc t => do
            let j ← jobCheck (dunion job [
              ("JobId", .str (fmtValue ajidv ++ "_" ++ toString t)),
              ("ArrayTaskId", .int t)])
            .ok (acc ++ [j])) []
        else do
          let ajidv ← match dget? job "ArrayJobId" with
            | some v => .ok v
            | Option.none => .error "KeyError: ArrayJobId"
          let j ← jobCheck (dunion job [
            ("JobId", .str (fmtValue ajidv ++ "_" ++ fmtValue ati))])
          .ok [j]
      | _ => .error "TypeError"

/-- The row loop of Slurm.current_jobs: rows processed in order, the first
raising row aborting the whole response. -/
def current_jobs_rows (headers : List String) : List String → Except String (List Dict)
  | [] => .ok []
  | l :: ls => do
    let js ← current_jobs_row headers l
    let rest ← current_jobs_rows headers ls
    .ok (js ++ rest)

/-- Slurm.current_jobs (src/dashboard.py lines 69-95) on the decoded
output lines of the external live-listing tool: the first line is the
header row, the rest are data rows. -/
def current_jobs (lines : List String) : Except String (List Dict) :=
  match lines with
  | [] => .error "IndexError"
  | hdr :: rows =>
    current_jobs_rows ((pySplit '|' (pyStrip hdr)).map squeueHeaderMap) rows

example : current_jobs ["JOBID|ARRAY_TASK_ID|NAME|STATE",
    "7|N/A|fix-en-x|RUNNING"]
    = .ok [[("JobId", .str "7"), ("JobName", .str "fix-en-x"),
            ("State", .str "RUNNING")]] := rfl
example : current_jobs ["JOBID|ARRAY_TASK_ID|ARRAY_JOB_ID|STATE",
    "12_5|5|12|RUNNING"]
    = .ok [[("JobId", .str "12_5"), ("ArrayTaskId", .str "5"),
            ("ArrayJobId", .str "12"), ("State", .str "RUNNING")]] := rfl
example : current_jobs ["JOBID|ARRAY_TASK_ID|ARRAY_JOB_ID|STATE",
    "12_[1-2]|1-2|12|PENDING"]
    = .ok [[("JobId", .str "12_1"), ("ArrayTaskId", .int 1),
            ("ArrayJobId", .str "12"), ("State", .str "PENDING")],
           [("JobId", .str "12_2"), ("ArrayTaskId", .int 2),
            ("ArrayJobId", .str "12"), ("State", .str "PENDING")]] := rfl

/-- The header renaming of the accounting listing (src/dashboard.py
lines 105-109). -/
def sacctHeaderMap (h : String) : String :=
  if h = "JobIDRaw" then "JobIDRaw"
  else if h = "JobState" then "State"
  else if h = "JobID" then "JobId"
  else h

/-- The shapes of an accounting JobId accepted by the pattern of
src/dashboard.py line 113: a plain id, a composite id, a collapsed
bracket with one task, or a collapsed bracket range. -/
inductive IdShape where
  | plain (id : String)
  | task (id task : String)
  | bstart (id start : String)
  | brange (id start stop : String)
deriving DecidableEq, Repr

/-- Anchored parse of the accounting JobId pattern: leading digits, then
optionally an underscore and digits, or a bracketed digit group optionally
dashed with a second digit group. -/
def parseIdShape (s : String) : Option IdShape :=
  match s.data.span Char.isDigit with
  | (ds, rest) =>
    if ds = [] then Option.none
    else
      match rest with
      | [] => some (.plain ⟨ds⟩)
      | '_' :: ts =>
        if ts ≠ [] ∧ ts.all Char.isDigit then some (.task ⟨ds⟩ ⟨ts⟩) else Option.none
      | '[' :: more =>
        match more.span Char.isDigit with
        | (as, rest2) =>
          if as = [] then Option.none
          else
            match rest2 with
            | [']'] => some (.bstart ⟨ds⟩ ⟨as⟩)
            | '-' :: more2 =>
              match more2.span Char.isDigit with
              | (bs, rest3) =>
                if bs = [] then Option.none
                else match rest3 with
                  | [']'] => some (.brange ⟨ds⟩ ⟨as⟩ ⟨bs⟩)
                  | _ => Option.none
            | _ => Option.none
      | _ => Option.none

example : parseIdShape "500" = some (.plain "500") := rfl
example : parseIdShape "500_7" = some (.task "500" "7") := rfl
example : parseIdShape "500[2]" = some (.bstart "500" "2") := rfl
example : parseIdShape "500[2-4]" = some (.brange "500" "2" "4") := rfl
example : parseIdShape "500_7.batch" = Option.none := rfl
example : parseIdShape "500.extern" = Option.none := rfl

/-- The collapsed-range expansion loop of Slurm.accounting_jobs
(src/dashboard.py lines 120-126). -/
def expandAcctRange (job : Dict) (aid : String) : List Nat → Except String (List Dict)
  | [] => .ok []
  | t :: ts => do
    let j ← jobCheck (dunion job [
      ("JobId", .str (aid ++ "_" ++ toString t)),
      ("ArrayJobId", .str aid),
      ("ArrayTaskId", .str (toString t))])
    let rest ← expandAcctRange job aid ts
    .ok (j :: rest)

/-- One row of Slurm.accounting_jobs (src/dashboard.py lines 111-135):
rows whose id carries an unmodeled suffix are skipped; a collapsed range
expands into one Job per task; a composite id or a single-task bracket
yields one Job (note the single-task bracket stores a Python None
ArrayTaskId, the value of the unmatched range-end group); a plain id
yields the row as one Job. -/
def accounting_row (headers : List String) (line : String) :
    Except String (List Dict) := do
  let job := rowDict headers line
  let jidv ← match dget? job "JobId" with
    | some v => .ok v
    | Option.none => .error "KeyError: JobId"
  let jid ← match jidv with
    | .str s => .ok s
    | _ => .error "TypeError"
  match parseIdShape jid with
  | Option.none => .ok []
  | some (.brange aid s e) => do
    let sN ← pyInt s
    let eN ← pyInt e
    expandAcctRange job aid (List.range' sN (eN + 1 - sN))
  | some (.task aid t) => do
    let tN ← pyInt t
    let j ← jobCheck (dunion job [
      ("JobId", .str (aid ++ "_" ++ toString tN)),
      ("ArrayJobId", .str aid),
      ("ArrayTaskId", .str t)])
    .ok [j]
  | some (.bstart aid s) => do
    let sN ← pyInt s
    let j ← jobCheck (dunion job [
      ("JobId", .str (aid ++ "_" ++ toString sN)),
      ("ArrayJobId", .str aid),
      ("ArrayTaskId", Value.none)])
    .ok [j]
  | some (.plain _) => do
    let j ← jobCheck job
    .ok [j]

/-- The row loop of Slurm.accounting_jobs. -/
def accounting_rows (headers : List String) : List String → Except String (List Dict)
  | [] => .ok []
  | l :: ls => do
    let js ← accounting_row headers l
    let rest ← accounting_rows headers ls
    .ok (js ++ rest)

/-- Slurm.accounting_jobs (src/dashboard.py lines 97-135) on the decoded
output lines of the external accounting tool. -/
def accounting_jobs (lines : List String) : Except String (List Dict) :=
  match lines with
  | [] => .error "IndexError"
  | hdr :: rows =>
    accounting_rows ((pySplit '|' (pyStrip hdr)).map sacctHeaderMap) rows

example : accounting_jobs ["JobID|JobState",
    "500[2-4]|PENDING"]
    = .ok [[("JobId", .str "500_2"), ("State", .str "PENDING"),
            ("ArrayJobId", .str "500"), ("ArrayTaskId", .str "2")],
           [("JobId", .str "500_3"), ("State", .str "PENDING"),
            ("ArrayJobId", .str "500"), ("ArrayTaskId", .str "3")],
           [("JobId", .str "500_4"), ("State", .str "PENDING"),
            ("ArrayJobId", .str "500"), ("ArrayTaskId", .str "4")]] := rfl
example : accounting_jobs ["JobID|JobState",
    "500_2.batch|COMPLETED", "500_2|COMPLETED"]
    = .ok [[("JobId", .str "500_2"), ("State", .str "COMPLETED"),
            ("ArrayJobId", .str "500"), ("ArrayTaskId", .str "2")]] := rfl

/-! ### Lemmas about the dict model -/

theorem except_bind_ok {α β : Type} {x : Except String α} {f : α → Except String β}
    {b : β} : (x >>= f) = .ok b ↔ ∃ a, x = .ok a ∧ f a = .ok b := by
  cases x with
  | error e => simp [Bind.bind, Except.bind]
  | ok a => simp [Bind.bind, Except.bind]

theorem dmem_iff {kv : String × Value} {d : Dict} : dmem kv d = true ↔ kv ∈ d := by
  induction d with
  | nil => simp [dmem]
  | cons e rest ih =>
    simp only [dmem]
    by_cases h : e = kv
    · subst h
      simp
    · rw [if_neg h, ih]
      constructor
      · exact fun hm => List.mem_cons_of_mem _ hm
      · intro hm
        rcases List.mem_cons.mp hm with h' | h'
        · exact absurd h'.symm h
        · exact h'

theorem changed_eq_false_iff {c j : Dict} :
    changed c j = false ↔ ∀ kv ∈ j, kv ∈ c := by
  simp only [changed, List.any_eq_false, Bool.not_eq_true']
  constructor
  · intro h kv hkv
    exact dmem_iff.mp (by simpa using (Bool.not_eq_false _).mp (by simpa using h kv hkv))
  · intro h kv hkv
    simp [dmem_iff.mpr (h kv hkv)]

theorem mem_of_dget?_eq_some {d : Dict} {k : String} {v : Value}
    (h : dget? d k = some v) : (k, v) ∈ d := by
  induction d with
  | nil => simp [dget?] at h
  | cons e rest ih =>
    by_cases he : e.1 = k
    · rw [dget?, if_pos he] at h
      have : e = (k, v) := by
        cases e
        simp only at he
        simp only [Option.some_inj] at h
        simp [he, h]
      simp [this]
    · rw [dget?, if_neg he] at h
      exact List.mem_cons_of_mem _ (ih h)

theorem dget?_eq_some_of_mem {d : Dict} {k : String} {v : Value}
    (hnd : (dkeys d).Nodup) (h : (k, v) ∈ d) : dget? d k = some v := by
  induction d with
  | nil => simp at h
  | cons e rest ih =>
    simp only [dkeys, List.map_cons, List.nodup_cons] at hnd
    rcases List.mem_cons.mp h with h | h
    · subst h
      simp [dget?]
    · have hne : e.1 ≠ k := by
        intro hk
        exact hnd.1 (hk ▸ (List.mem_map.mpr ⟨(k, v), h, rfl⟩))
      rw [dget?, if_neg hne]
      exact ih hnd.2 h

theorem value_unique_of_nodup {d : Dict} {k : String} {v w : Value}
    (hnd : (dkeys d).Nodup) (hv : (k, v) ∈ d) (hw : (k, w) ∈ d) : v = w := by
  have h1 := dget?_eq_some_of_mem hnd hv
  have h2 := dget?_eq_some_of_mem hnd hw
  rw [h1] at h2
  exact Option.some_inj.mp h2

theorem dget?_append {a b : Dict} {k : String} :
    dget? (a ++ b) k =
      match dget? a k with
      | some v => some v
      | Option.none => dget? b k := by
  induction a with
  | nil => simp [dget?]
  | cons e rest ih =>
    by_cases he : e.1 = k
    · simp [dget?, he]
    · simp only [List.cons_append, dget?, if_neg he]
      exact ih

/-- The map half of dunion rewrites each key of the current record to the
draft value when the draft defines it. -/
def dunionMap (c j : Dict) : Dict :=
  c.map (fun e =>
    match dget? j e.1 with
    | some v => (e.1, v)
    | Option.none => e)

theorem dunion_eq_parts {c j : Dict} :
    dunion c j = dunionMap c j ++ j.filter (fun e => dget? c e.1 = Option.none) := rfl

theorem dget?_dunionMap {c j : Dict} {k : String} :
    dget? (dunionMap c j) k = (dget? c k).map (fun v => (dget? j k).getD v) := by
  induction c with
  | nil => simp [dunionMap, dget?]
  | cons e rest ih =>
    by_cases he : e.1 = k
    · subst he
      rcases hj : dget? j e.1 with _ | w <;>
        simp [dunionMap, dget?, hj]
    · have hkey : (match dget? j e.1 with
          | some v => (e.1, v)
          | Option.none => e).1 = e.1 := by
        rcases dget? j e.1 with _ | w <;> simp
      simp only [dunionMap, List.map_cons, dget?, hkey, if_neg he]
      exact ih

theorem dget?_filter_not_in {c j : Dict} {k : String} (hc : dget? c k = Option.none) :
    dget? (j.filter (fun e => dget? c e.1 = Option.none)) k = dget? j k := by
  induction j with
  | nil => simp [dget?]
  | cons e rest ih =>
    by_cases he : e.1 = k
    · subst he
      simp [List.filter_cons, hc, dget?]
    · by_cases hp : dget? c e.1 = Option.none
      · simp only [List.filter_cons, hp, decide_True, dget?, if_neg he]
        exact ih
      · simp only [List.filter_cons, hp, decide_False]
        rw [dget?, if_neg he] at *
        exact ih

theorem dget?_dunion {c j : Dict} {k : String} :
    dget? (dunion c j) k =
      match dget? c k with
      | some v => some ((dget? j k).getD v)
      | Option.none => dget? j k := by
  rw [dunion_eq_parts, dget?_append, dget?_dunionMap]
  rcases hc : dget? c k with _ | v
  · simp [dget?_filter_not_in hc]
  · simp

theorem map_self_of_fixed {α : Type} {f : α → α} :
    ∀ {l : List α}, (∀ e ∈ l, f e = e) → l.map f = l := by
  intro l h
  induction l with
  | nil => rfl
  | cons a t ih =>
    simp only [List.map_cons]
    rw [h a (by simp), ih (fun e he => h e (by simp [he]))]

theorem dunion_eq_self_of_sub {c j : Dict} (hnd : (dkeys c).Nodup)
    (h : ∀ kv ∈ j, kv ∈ c) : dunion c j = c := by
  have hfilter : j.filter (fun e => dget? c e.1 = Option.none) = [] := by
    rw [List.filter_eq_nil_iff]
    intro e he
    have hm : (e.1, e.2) ∈ c := h e he
    simp [dget?_eq_some_of_mem hnd hm]
  have hmap : dunionMap c j = c := by
    apply map_self_of_fixed
    intro e he
    rcases hj : dget? j e.1 with _ | w
    · rfl
    · have hwc : (e.1, w) ∈ c := h _ (mem_of_dget?_eq_some hj)
      have hve : (e.1, e.2) ∈ c := by simpa using he
      have : w = e.2 := value_unique_of_nodup hnd hwc hve
      simp [this]
  rw [dunion_eq_parts, hfilter, hmap, List.append_nil]

theorem dunion_ne_self_of_changed {c j : Dict} (hnd : (dkeys j).Nodup)
    (h : changed c j = true) : dunion c j ≠ c := by
  simp only [changed, List.any_eq_true] at h
  obtain ⟨⟨k, v⟩, hkv, hnotmem⟩ := h
  have hnm : (k, v) ∉ c := fun hc => by simp [dmem_iff.mpr hc] at hnotmem
  have hjv : dget? j k = some v := dget?_eq_some_of_mem hnd hkv
  intro heq
  have hu : dget? (dunion c j) k = some v := by
    rw [dget?_dunion]
    rcases hc : dget? c k with _ | w <;> simp [hjv]
  rw [heq] at hu
  exact hnm (mem_of_dget?_eq_some hu)

theorem changed_iff_dunion_ne {c j : Dict} (hndc : (dkeys c).Nodup)
    (hndj : (dkeys j).Nodup) : changed c j = true ↔ dunion c j ≠ c := by
  constructor
  · exact dunion_ne_self_of_changed hndj
  · intro h
    by_contra hc
    have := changed_eq_false_iff.mp (Bool.not_eq_true _ ▸ hc)
    exact h (dunion_eq_self_of_sub hndc this)

/-! ### Lemmas about the job table -/

theorem jobCheck_ok_iff {d d' : Dict} :
    jobCheck d = .ok d' ↔ (dget? d "ArrayTaskId" ≠ some (.str "N/A") ∧ d' = d) := by
  unfold jobCheck
  by_cases h : dget? d "ArrayTaskId" = some (.str "N/A")
  · simp [h]
  · simp only [h, if_false]
    constructor
    · intro he
      exact ⟨h, (Except.ok.injEq _ _ |>.mp he).symm⟩
    · rintro ⟨-, rfl⟩
      rfl

theorem getJobId_ok_iff {j : Dict} {id : String} :
    getJobId j = .ok id ↔ dget? j "JobId" = some (.str id) := by
  unfold getJobId
  rcases h : dget? j "JobId" with _ | v
  · simp
  · cases v <;> simp

theorem lookup?_setEntry_ne {jl : JobList} {id id' : String} {v : Dict × Option Nat}
    (h : id' ≠ id) : (jl.setEntry id v).lookup? id' = jl.lookup? id' := by
  rcases jl with ⟨entries⟩
  simp only [JobList.setEntry, JobList.lookup?]
  induction entries with
  | nil => rfl
  | cons e rest ih =>
    by_cases he : e.1 = id
    · have h1 : ¬ (id = id') := fun hh => h hh.symm
      have h2 : ¬ (e.1 = id') := he ▸ h1
      simp only [List.map_cons, if_pos he, entriesLookup?, if_neg h1, if_neg h2]
      exact ih
    · simp only [List.map_cons, if_neg he, entriesLookup?]
      by_cases he' : e.1 = id'
      · simp [he']
      · simp only [if_neg he']
        exact ih

theorem lookup?_setEntry_self {jl : JobList} {id : String} {v w : Dict × Option Nat}
    (h : jl.lookup? id = some w) : (jl.setEntry id v).lookup? id = some v := by
  rcases jl with ⟨entries⟩
  simp only [JobList.setEntry, JobList.lookup?] at *
  induction entries with
  | nil => simp [entriesLookup?] at h
  | cons e rest ih =>
    by_cases he : e.1 = id
    · simp [List.map_cons, if_pos he, entriesLookup?]
    · simp only [entriesLookup?, if_neg he] at h
      simp only [List.map_cons, if_neg he, entriesLookup?, if_neg he]
      exact ih h

theorem lookup?_insertEntry_ne {jl : JobList} {id id' : String} {v : Dict × Option Nat}
    (h : id' ≠ id) : (jl.insertEntry id v).lookup? id' = jl.lookup? id' := by
  rcases jl with ⟨entries⟩
  simp only [JobList.insertEntry, JobList.lookup?]
  induction entries with
  | nil =>
    have h1 : ¬ (id = id') := fun hh => h hh.symm
    simp [entriesLookup?, if_neg h1]
  | cons e rest ih =>
    by_cases he : e.1 = id'
    · simp [entriesLookup?, he]
    · simp only [List.cons_append, entriesLookup?, if_neg he]
      exact ih

theorem lookup?_insertEntry_self {jl : JobList} {id : String} {v : Dict × Option Nat}
    (h : jl.lookup? id = Option.none) : (jl.insertEntry id v).lookup? id = some v := by
  rcases jl with ⟨entries⟩
  simp only [JobList.insertEntry, JobList.lookup?] at *
  induction entries with
  | nil => simp [entriesLookup?]
  | cons e rest ih =>
    by_cases he : e.1 = id
    · simp [entriesLookup?, he] at h
    · simp only [entriesLookup?, if_neg he] at h
      simp only [List.cons_append, entriesLookup?, if_neg he]
      exact ih h

theorem job_ids_setEntry {jl : JobList} {id : String} {v : Dict × Option Nat} :
    (jl.setEntry id v).job_ids = jl.job_ids := by
  rcases jl with ⟨entries⟩
  simp only [JobList.setEntry, JobList.job_ids, List.map_map]
  apply List.map_congr_left
  intro e _
  by_cases he : e.1 = id
  · simp [he]
  · simp [he]

theorem job_ids_insertEntry {jl : JobList} {id : String} {v : Dict × Option Nat} :
    (jl.insertEntry id v).job_ids = jl.job_ids ++ [id] := by
  rcases jl with ⟨entries⟩
  simp [JobList.insertEntry, JobList.job_ids]

theorem lookup?_eq_none_iff {jl : JobList} {id : String} :
    jl.lookup? id = Option.none ↔ id ∉ jl.job_ids := by
  rcases jl with ⟨entries⟩
  simp only [JobList.lookup?, JobList.job_ids]
  induction entries with
  | nil => simp [entriesLookup?]
  | cons e rest ih =>
    by_cases he : e.1 = id
    · simp [entriesLookup?, he]
    · simp only [entriesLookup?, if_neg he, List.map_cons, List.mem_cons, ih]
      constructor
      · rintro h (h' | h')
        · exact he h'.symm
        · exact h h'
      · intro h h'
        exact h (Or.inr h')

theorem update1_ok_cases {jl : JobList} {j : Dict} {t : Option Nat} {jl' : JobList}
    (h : jl.update1 j t = .ok jl') :
    ∃ jid, getJobId j = .ok jid ∧
      ((∃ cur cts, jl.lookup? jid = some (cur, cts) ∧
          ((changed cur j = true ∧
            dget? (dunion cur j) "ArrayTaskId" ≠ some (.str "N/A") ∧
            jl' = jl.setEntry jid (dunion cur j, mergeTimestamp t cts)) ∨
           (changed cur j = false ∧ jl' = jl)))
       ∨ (jl.lookup? jid = Option.none ∧ jl' = jl.insertEntry jid (j, t))) := by
  unfold JobList.update1 at h
  rcases except_bind_ok.mp h with ⟨jid, hjid, h2⟩
  refine ⟨jid, hjid, ?_⟩
  split at h2
  next cur cts heq =>
    split at h2
    next hc =>
      rcases except_bind_ok.mp h2 with ⟨merged, hm, h3⟩
      rcases jobCheck_ok_iff.mp hm with ⟨hna, rfl⟩
      simp only [Except.ok.injEq] at h3
      exact Or.inl ⟨cur, cts, heq, Or.inl ⟨hc, hna, h3.symm⟩⟩
    next hc =>
      simp only [Except.ok.injEq] at h2
      exact Or.inl ⟨cur, cts, heq, Or.inr ⟨Bool.not_eq_true _ ▸ hc, h2.symm⟩⟩
  next heq =>
    simp only [Except.ok.injEq] at h2
    exact Or.inr ⟨heq, h2.symm⟩

theorem update1_lookup?_ne {jl jl' : JobList} {j : Dict} {t : Option Nat} {id : String}
    (h : jl.update1 j t = .ok jl') (hne : getJobId j ≠ .ok id) :
    jl'.lookup? id = jl.lookup? id := by
  rcases update1_ok_cases h with ⟨jid, hjid, hcase⟩
  have hid : id ≠ jid := fun hh => hne (hh ▸ hjid)
  rcases hcase with ⟨cur, cts, _, hbr⟩ | ⟨_, rfl⟩
  · rcases hbr with ⟨_, _, rfl⟩ | ⟨_, rfl⟩
    · exact lookup?_setEntry_ne hid
    · rfl
  · exact lookup?_insertEntry_ne hid

theorem update_ok_append {jl : JobList} {a b : List (Dict × Option Nat)} {jl' : JobList} :
    jl.update (a ++ b) = .ok jl' ↔
      ∃ jm, jl.update a = .ok jm ∧ jm.update b = .ok jl' := by
  induction a generalizing jl with
  | nil =>
    simp only [List.nil_append, JobList.update]
    constructor
    · intro h
      exact ⟨jl, rfl, h⟩
    · rintro ⟨jm, hm, h⟩
      simp only [Except.ok.injEq] at hm
      exact hm ▸ h
  | cons p rest ih =>
    rcases p with ⟨pj, pt⟩
    simp only [List.cons_append, JobList.update]
    rw [except_bind_ok]
    constructor
    · rintro ⟨jm1, h1, h2⟩
      rcases ih.mp h2 with ⟨jm, hm, hb⟩
      refine ⟨jm, ?_, hb⟩
      rw [except_bind_ok]
      exact ⟨jm1, h1, hm⟩
    · rintro ⟨jm, hm, hb⟩
      rw [except_bind_ok] at hm
      rcases hm with ⟨jm1, h1, h2⟩
      exact ⟨jm1, h1, ih.mpr ⟨jm, h2, hb⟩⟩

theorem update_lookup?_irrelevant {jl jl' : JobList} {ds : List (Dict × Option Nat)}
    {id : String} (h : jl.update ds = .ok jl')
    (hall : ∀ p ∈ ds, getJobId p.1 ≠ .ok id) :
    jl'.lookup? id = jl.lookup? id := by
  induction ds generalizing jl with
  | nil =>
    simp only [JobList.update, Except.ok.injEq] at h
    rw [h]
  | cons p rest ih =>
    rcases p with ⟨pj, pt⟩
    simp only [JobList.update] at h
    rcases except_bind_ok.mp h with ⟨jm, h1, h2⟩
    rw [ih h2 (fun q hq => hall q (List.mem_cons_of_mem _ hq))]
    exact update1_lookup?_ne h1 (hall (pj, pt) (by simp))
example : dunion [("a", .str "1"), ("b", .str "2")] [("b", .str "x"), ("c", .str "y")]
    = [("a", .str "1"), ("b", .str "x"), ("c", .str "y")] := rfl
example : changed [("a", .str "1")] [("a", .str "1")] = false := rfl
example : changed [("a", .str "1")] [("a", .str "2")] = true := rfl
example : changed [("a", .str "1"), ("b", .str "2")] [("b", .str "2")] = false := rfl

theorem update_not_mem_job_ids {jl jl' : JobList} {ds : List (Dict × Option Nat)}
    {id : String} (h : jl.update ds = .ok jl')
    (hall : ∀ p ∈ ds, getJobId p.1 ≠ .ok id) (hid : id ∉ jl.job_ids) :
    id ∉ jl'.job_ids := by
  rw [← lookup?_eq_none_iff] at hid ⊢
  rw [update_lookup?_irrelevant h hall, hid]

theorem lookup?_some_mem {jl : JobList} {id : String} {v : Dict × Option Nat}
    (h : jl.lookup? id = some v) : (id, v) ∈ jl.entries := by
  rcases jl with ⟨entries⟩
  simp only [JobList.lookup?] at h
  induction entries with
  | nil => simp [entriesLookup?] at h
  | cons e rest ih =>
    by_cases he : e.1 = id
    · simp only [entriesLookup?, if_pos he, Option.some_inj] at h
      have : e = (id, v) := by
        cases e
        simp only at he
        simp [he, ← h]
      simp [this]
    · simp only [entriesLookup?, if_neg he] at h
      exact List.mem_cons_of_mem _ (ih h)

theorem jobIdsOf_mem_intro {jobs : List Dict} {j : Dict} {id : String}
    (hj : j ∈ jobs) (h : dget? j "JobId" = some (.str id)) : id ∈ jobIdsOf jobs := by
  apply List.mem_filterMap.mpr
  exact ⟨j, hj, by simp [h]⟩

theorem updateWith_irrelevant_of_ids {jl jl' : JobList} {jobs : List Dict}
    {ts : Option Nat} {id : String} (h : jl.updateWith jobs ts = .ok jl')
    (hid : id ∉ jobIdsOf jobs) : jl'.lookup? id = jl.lookup? id := by
  apply update_lookup?_irrelevant h
  rintro ⟨pj, pt⟩ hp hok
  simp only [List.mem_map] at hp
  rcases hp with ⟨j0, hj0, hj0e⟩
  cases hj0e
  exact hid (jobIdsOf_mem_intro hj0 (getJobId_ok_iff.mp hok))

/-- Table well-formedness: each stored record carries its own entry key in
its JobId field (true of every table the engine builds, since entries are
keyed by the draft JobId in JobList.update). -/
def WFids (jl : JobList) : Prop :=
  ∀ e ∈ jl.entries, dget? e.2.1 "JobId" = some (.str e.1)

theorem WFids_update1 {jl jl' : JobList} {j : Dict} {t : Option Nat}
    (h : jl.update1 j t = .ok jl') (hwf : WFids jl) : WFids jl' := by
  rcases update1_ok_cases h with ⟨jid, hjid, hcase⟩
  have hjd : dget? j "JobId" = some (.str jid) := getJobId_ok_iff.mp hjid
  rcases hcase with ⟨cur, cts, hl, hbr⟩ | ⟨hl, rfl⟩
  · rcases hbr with ⟨_, _, rfl⟩ | ⟨_, rfl⟩
    · intro e he
      rcases jl with ⟨entries⟩
      simp only [JobList.setEntry, List.mem_map] at he
      rcases he with ⟨e0, he0, rfl⟩
      by_cases h0 : e0.1 = jid
      · simp only [if_pos h0]
        rw [dget?_dunion, hjd]
        rcases dget? cur "JobId" with _ | w <;> simp
      · simp only [if_neg h0]
        exact hwf e0 he0
    · exact hwf
  · intro e he
    rcases jl with ⟨entries⟩
    simp only [JobList.insertEntry, List.mem_append, List.mem_singleton] at he
    rcases he with he | rfl
    · exact hwf e he
    · exact hjd

theorem WFids_update {jl jl' : JobList} {ds : List (Dict × Option Nat)}
    (h : jl.update ds = .ok jl') (hwf : WFids jl) : WFids jl' := by
  induction ds generalizing jl with
  | nil =>
    simp only [JobList.update, Except.ok.injEq] at h
    exact h ▸ hwf
  | cons p rest ih =>
    rcases p with ⟨pj, pt⟩
    simp only [JobList.update] at h
    rcases except_bind_ok.mp h with ⟨jm, h1, h2⟩
    exact ih h2 (WFids_update1 h1 hwf)

theorem idsNodup_update1 {jl jl' : JobList} {j : Dict} {t : Option Nat}
    (h : jl.update1 j t = .ok jl') (hnd : jl.job_ids.Nodup) : jl'.job_ids.Nodup := by
  rcases update1_ok_cases h with ⟨jid, hjid, hcase⟩
  rcases hcase with ⟨cur, cts, hl, hbr⟩ | ⟨hl, rfl⟩
  · rcases hbr with ⟨_, _, rfl⟩ | ⟨_, rfl⟩
    · rw [job_ids_setEntry]
      exact hnd
    · exact hnd
  · rw [job_ids_insertEntry]
    have hn : jid ∉ jl.job_ids := lookup?_eq_none_iff.mp hl
    simp only [List.nodup_append, List.nodup_singleton]
    exact ⟨hnd, by simp, by simpa [List.disjoint_singleton] using hn⟩

theorem idsNodup_update {jl jl' : JobList} {ds : List (Dict × Option Nat)}
    (h : jl.update ds = .ok jl') (hnd : jl.job_ids.Nodup) : jl'.job_ids.Nodup := by
  induction ds generalizing jl with
  | nil =>
    simp only [JobList.update, Except.ok.injEq] at h
    exact h ▸ hnd
  | cons p rest ih =>
    rcases p with ⟨pj, pt⟩
    simp only [JobList.update] at h
    rcases except_bind_ok.mp h with ⟨jm, h1, h2⟩
    exact ih h2 (idsNodup_update1 h1 hnd)

theorem filter_entries_shape {jl : JobList} {op : Dict → Bool} :
    (jl.filter op Option.none).entries
      = jl.entries.filter (fun e => op e.2.1) := by
  rcases jl with ⟨entries⟩
  simp only [JobList.filter]
  rw [map_self_of_fixed]
  intro e _
  rfl

theorem WFids_filter {jl : JobList} {op : Dict → Bool} (hwf : WFids jl) :
    WFids (jl.filter op Option.none) := by
  intro e he
  rw [filter_entries_shape] at he
  exact hwf e (List.mem_of_mem_filter he)

theorem idsNodup_filter {jl : JobList} {op : Dict → Bool} (hnd : jl.job_ids.Nodup) :
    (jl.filter op Option.none).job_ids.Nodup := by
  have hsub : (jl.filter op Option.none).job_ids.Sublist jl.job_ids := by
    rw [JobList.job_ids, JobList.job_ids, filter_entries_shape]
    exact List.Sublist.map _ (List.filter_sublist _)
  exact hnd.sublist hsub

theorem lookup?_filter_of_mem {jl : JobList} {op : Dict → Bool} {id : String}
    {cur : Dict} {ts : Option Nat} (hnd : jl.job_ids.Nodup)
    (hmem : (id, cur, ts) ∈ jl.entries) (hop : op cur = true) :
    (jl.filter op Option.none).lookup? id = some (cur, ts) := by
  rcases jl with ⟨entries⟩
  simp only [JobList.lookup?, filter_entries_shape]
  simp only [JobList.job_ids] at hnd
  induction entries with
  | nil => simp at hmem
  | cons e rest ih =>
    simp only [List.map_cons, List.nodup_cons] at hnd
    rcases List.mem_cons.mp hmem with rfl | hmem'
    · simp [List.filter_cons, hop, entriesLookup?]
    · have hne : e.1 ≠ id := by
        intro hk
        exact hnd.1 (hk ▸ (List.mem_map.mpr ⟨(id, cur, ts), hmem', rfl⟩))
      by_cases hp : op e.2.1 = true
      · simp only [List.filter_cons, hp, if_true, entriesLookup?, if_neg hne]
        exact ih hnd.2 hmem'
      · simp only [List.filter_cons, hp, if_false]
        exact ih hnd.2 hmem'

theorem mem_dunion_right {c j : Dict} {k : String} {v : Value}
    (hmem : (k, v) ∈ j) (hget : dget? j k = some v) : (k, v) ∈ dunion c j := by
  rw [dunion_eq_parts, List.mem_append]
  rcases hc : dget? c k with _ | w
  · right
    apply List.mem_filter.mpr
    exact ⟨hmem, by simp [hc]⟩
  · left
    apply List.mem_map.mpr
    refine ⟨(k, w), mem_of_dget?_eq_some hc, ?_⟩
    simp [hget]

theorem dget?_cancelledDraft_jobid {id : String} :
    dget? (cancelledDraft id) "JobId" = some (.str id) := rfl

theorem dget?_cancelledDraft_state {id : String} :
    dget? (cancelledDraft id) "State" = some (.str "CANCELLED") := rfl

theorem getJobId_cancelledDraft {id : String} :
    getJobId (cancelledDraft id) = .ok id := rfl

theorem state_item_not_mem_of_active {cur : Dict} (hnd : (dkeys cur).Nodup)
    (hact : isActiveJob cur = true) :
    ("State", Value.str "CANCELLED") ∉ cur := by
  intro hmem
  have hget : dget? cur "State" = some (.str "CANCELLED") :=
    dget?_eq_some_of_mem hnd hmem
  rw [isActiveJob, hget] at hact
  simp [STALE_STATES] at hact

theorem changed_cancelledDraft_of_active {cur : Dict} {id : String}
    (hnd : (dkeys cur).Nodup) (hact : isActiveJob cur = true) :
    changed cur (cancelledDraft id) = true := by
  rw [changed, List.any_eq_true]
  refine ⟨("State", .str "CANCELLED"), by simp [cancelledDraft], ?_⟩
  have := state_item_not_mem_of_active hnd hact
  simp only [Bool.not_eq_true']
  rw [← Bool.not_eq_true, dmem_iff]
  exact this

theorem changed_after_cancel {cur : Dict} {id : String} :
    changed (dunion cur (cancelledDraft id)) (cancelledDraft id) = false := by
  rw [changed_eq_false_iff]
  intro kv hkv
  rcases List.mem_cons.mp hkv with rfl | hkv'
  · exact mem_dunion_right (by simp [cancelledDraft]) dget?_cancelledDraft_jobid
  · rcases List.mem_singleton.mp hkv' with rfl
    exact mem_dunion_right (by simp [cancelledDraft]) dget?_cancelledDraft_state

theorem dget?_dunion_state_cancel {cur : Dict} {id : String} :
    dget? (dunion cur (cancelledDraft id)) "State" = some (.str "CANCELLED") := by
  rw [dget?_dunion, dget?_cancelledDraft_state]
  rcases dget? cur "State" with _ | w <;> simp

theorem dget?_dunion_jobid_cancel {cur : Dict} {id : String} :
    dget? (dunion cur (cancelledDraft id)) "JobId" = some (.str id) := by
  rw [dget?_dunion, dget?_cancelledDraft_jobid]
  rcases dget? cur "JobId" with _ | w <;> simp

theorem getJobId_dunion_cancel {cur : Dict} {id : String} :
    getJobId (dunion cur (cancelledDraft id)) = .ok id :=
  getJobId_ok_iff.mpr dget?_dunion_jobid_cancel

theorem mem_deadJobs_intro {scratch : JobList} {seen : List String} {id : String}
    {v : Dict × Option Nat} (hmem : (id, v) ∈ scratch.entries)
    (hjid : dget? v.1 "JobId" = some (.str id)) (hseen : id ∉ seen) :
    cancelledDraft id ∈ deadJobs scratch seen := by
  apply List.mem_filterMap.mpr
  refine ⟨(id, v), hmem, ?_⟩
  simp [hjid, hseen]

theorem deadJobs_relevant {scratch : JobList} {seen : List String} {d : Dict}
    {id : String} (hd : d ∈ deadJobs scratch seen) (hok : getJobId d = .ok id) :
    d = cancelledDraft id ∧ id ∉ seen := by
  rcases List.mem_filterMap.mp hd with ⟨e, _, he⟩
  rcases hg : dget? e.2.1 "JobId" with _ | v
  · rw [hg] at he
    simp at he
  · rw [hg] at he
    cases v with
    | str idx =>
      by_cases hs : idx ∈ seen
      · simp [hs] at he
      · simp only [hs, if_neg, if_false] at he
        have hde : d = cancelledDraft idx := by
          simpa using he.symm
        subst hde
        have : idx = id := by
          have hgc : getJobId (cancelledDraft idx) = .ok idx :=
            getJobId_cancelledDraft
          rw [hgc] at hok
          simpa using hok
        subst this
        exact ⟨rfl, hs⟩
    | int n => simp at he
    | args l => simp at he
    | none => simp at he

theorem deadJobs_not_relevant_of_seen {scratch : JobList} {seen : List String}
    {d : Dict} {id : String} (hseen : id ∈ seen) (hd : d ∈ deadJobs scratch seen) :
    getJobId d ≠ .ok id := by
  intro hok
  exact (deadJobs_relevant hd hok).2 hseen

theorem mergeTimestamp_none {ts : Option Nat} : mergeTimestamp Option.none ts = ts := rfl


theorem some_pair_inj {α β : Type} {a c : α} {b d : β}
    (h : some (a, b) = some (c, d)) : a = c ∧ b = d := by
  have hp := Option.some.inj h
  exact ⟨congrArg Prod.fst hp, congrArg Prod.snd hp⟩

theorem update_cancel_stable {jl jl' : JobList} {ds : List (Dict × Option Nat)}
    {id : String} {cur : Dict} {ts : Option Nat}
    (h : jl.update ds = .ok jl')
    (hlook : jl.lookup? id = some (dunion cur (cancelledDraft id), ts))
    (hall : ∀ p ∈ ds, getJobId p.1 = .ok id → p.1 = cancelledDraft id) :
    jl'.lookup? id = some (dunion cur (cancelledDraft id), ts) := by
  induction ds generalizing jl with
  | nil =>
    simp only [JobList.update, Except.ok.injEq] at h
    exact h ▸ hlook
  | cons p rest ih =>
    rcases p with ⟨pj, pt⟩
    simp only [JobList.update] at h
    rcases except_bind_ok.mp h with ⟨jm, h1, h2⟩
    by_cases hrel : getJobId pj = .ok id
    · have hp1 : pj = cancelledDraft id := hall (pj, pt) (by simp) hrel
      subst hp1
      rcases update1_ok_cases h1 with ⟨jid, hjid, hcase⟩
      have hgj : id = jid := by
        rw [getJobId_cancelledDraft] at hjid
        exact Except.ok.inj hjid
      subst hgj
      rcases hcase with ⟨cur2, cts2, hl2, hbr⟩ | ⟨hl2, _⟩
      · rw [hlook] at hl2
        obtain ⟨hc2, ht2⟩ := some_pair_inj hl2
        subst hc2
        subst ht2
        rcases hbr with ⟨hc, _, _⟩ | ⟨_, rfl⟩
        · rw [changed_after_cancel] at hc
          cases hc
        · exact ih h2 hlook (fun q hq => hall q (List.mem_cons_of_mem _ hq))
      · rw [hlook] at hl2
        cases hl2
    · have hlm : jm.lookup? id = some (dunion cur (cancelledDraft id), ts) := by
        rw [update1_lookup?_ne h1 hrel]
        exact hlook
      exact ih h2 hlm (fun q hq => hall q (List.mem_cons_of_mem _ hq))

theorem update_cancel_phase {jl jl' : JobList} {ds : List (Dict × Option Nat)}
    {id : String} {cur : Dict} {ts : Option Nat}
    (h : jl.update ds = .ok jl')
    (hlook : jl.lookup? id = some (cur, ts))
    (hnd : (dkeys cur).Nodup) (hact : isActiveJob cur = true)
    (hall : ∀ p ∈ ds, getJobId p.1 = .ok id →
      p.1 = cancelledDraft id ∧ p.2 = Option.none)
    (hmem : (cancelledDraft id, (Option.none : Option Nat)) ∈ ds) :
    jl'.lookup? id = some (dunion cur (cancelledDraft id), ts) := by
  induction ds generalizing jl with
  | nil => simp at hmem
  | cons p rest ih =>
    rcases p with ⟨pj, pt⟩
    simp only [JobList.update] at h
    rcases except_bind_ok.mp h with ⟨jm, h1, h2⟩
    by_cases hrel : getJobId pj = .ok id
    · obtain ⟨hp1, hp2⟩ := hall (pj, pt) (by simp) hrel
      simp only at hp1 hp2
      subst hp1
      subst hp2
      rcases update1_ok_cases h1 with ⟨jid, hjid, hcase⟩
      have hgj : id = jid := by
        rw [getJobId_cancelledDraft] at hjid
        exact Except.ok.inj hjid
      subst hgj
      rcases hcase with ⟨cur2, cts2, hl2, hbr⟩ | ⟨hl2, _⟩
      · rw [hlook] at hl2
        obtain ⟨hc2, ht2⟩ := some_pair_inj hl2
        subst hc2
        subst ht2
        rcases hbr with ⟨_, _, rfl⟩ | ⟨hc, _⟩
        · have hlm : (jl.setEntry id (dunion cur (cancelledDraft id),
              mergeTimestamp Option.none ts)).lookup? id
                = some (dunion cur (cancelledDraft id), ts) := by
            rw [mergeTimestamp_none]
            exact lookup?_setEntry_self hlook
          exact update_cancel_stable h2 hlm
            (fun q hq hok => (hall q (List.mem_cons_of_mem _ hq) hok).1)
        · rw [changed_cancelledDraft_of_active hnd hact] at hc
          cases hc
      · rw [hlook] at hl2
        cases hl2
    · have hpne : ((pj, pt) : Dict × Option Nat)
          ≠ (cancelledDraft id, (Option.none : Option Nat)) := by
        intro he
        apply hrel
        have hfst : pj = cancelledDraft id := congrArg Prod.fst he
        rw [hfst]
        exact getJobId_cancelledDraft
      have hmem' : (cancelledDraft id, (Option.none : Option Nat)) ∈ rest := by
        rcases List.mem_cons.mp hmem with he | he
        · exact absurd he.symm hpne
        · exact he
      have hlm : jm.lookup? id = some (cur, ts) := by
        rw [update1_lookup?_ne h1 hrel]
        exact hlook
      exact ih h2 hlm (fun q hq => hall q (List.mem_cons_of_mem _ hq)) hmem'

theorem changed_commit_cancel {cur : Dict} {id : String}
    (hnd : (dkeys cur).Nodup) (hact : isActiveJob cur = true) :
    changed cur (dunion cur (cancelledDraft id)) = true := by
  rw [changed, List.any_eq_true]
  refine ⟨("State", .str "CANCELLED"),
    mem_dunion_right (by simp [cancelledDraft]) dget?_cancelledDraft_state, ?_⟩
  have hnm := state_item_not_mem_of_active hnd hact
  simp only [Bool.not_eq_true']
  rw [← Bool.not_eq_true, dmem_iff]
  exact hnm

theorem entries_split_of_lookup {jl : JobList} {id : String} {v : Dict × Option Nat}
    (hnd : jl.job_ids.Nodup) (h : jl.lookup? id = some v) :
    ∃ pre post, jl.entries = pre ++ (id, v) :: post ∧
      (∀ e ∈ pre, e.1 ≠ id) ∧ (∀ e ∈ post, e.1 ≠ id) := by
  rcases jl with ⟨entries⟩
  simp only [JobList.lookup?, JobList.job_ids] at h hnd
  induction entries with
  | nil => simp [entriesLookup?] at h
  | cons e rest ih =>
    simp only [List.map_cons, List.nodup_cons] at hnd
    by_cases he : e.1 = id
    · have hev : e = (id, v) := by
        simp only [entriesLookup?, if_pos he, Option.some_inj] at h
        cases e
        simp only at he
        simp [he, ← h]
      refine ⟨[], rest, by simp [hev], by simp, ?_⟩
      intro e' he'
      intro hc
      rw [← he] at hc
      exact (hnd.1 (hc ▸ (List.mem_map.mpr ⟨e', he', rfl⟩))).elim
    · simp only [entriesLookup?, if_neg he] at h
      rcases ih hnd.2 h with ⟨pre, post, heq, hpre, hpost⟩
      have heq' : rest = pre ++ (id, v) :: post := heq
      refine ⟨e :: pre, post, by simp [heq'], ?_, hpost⟩
      intro e' he'
      rcases List.mem_cons.mp he' with rfl | he''
      · exact he
      · exact hpre e' he''

theorem update_commit_cancel {jl jl' : JobList} {pre post : List (Dict × Option Nat)}
    {id : String} {cur : Dict} {ts0 tstar : Option Nat}
    (h : jl.update (pre ++ (dunion cur (cancelledDraft id), tstar) :: post) = .ok jl')
    (hpre : ∀ p ∈ pre, getJobId p.1 ≠ .ok id)
    (hpost : ∀ p ∈ post, getJobId p.1 ≠ .ok id)
    (hlook : jl.lookup? id = some (cur, ts0))
    (hnd : (dkeys cur).Nodup) (hact : isActiveJob cur = true) :
    jl'.lookup? id = some (dunion cur (dunion cur (cancelledDraft id)),
      mergeTimestamp tstar ts0) := by
  rcases update_ok_append.mp h with ⟨jm, hA, hB⟩
  have hlm : jm.lookup? id = some (cur, ts0) := by
    rw [update_lookup?_irrelevant hA hpre]
    exact hlook
  simp only [JobList.update] at hB
  rcases except_bind_ok.mp hB with ⟨jm2, h1, h2⟩
  rcases update1_ok_cases h1 with ⟨jid, hjid, hcase⟩
  have hgj : id = jid := by
    rw [getJobId_dunion_cancel] at hjid
    exact Except.ok.inj hjid
  subst hgj
  rcases hcase with ⟨cur2, cts2, hl2, hbr⟩ | ⟨hl2, _⟩
  · rw [hlm] at hl2
    obtain ⟨hc2, ht2⟩ := some_pair_inj hl2
    subst hc2
    subst ht2
    rcases hbr with ⟨_, _, rfl⟩ | ⟨hc, _⟩
    · rw [update_lookup?_irrelevant h2 hpost]
      exact lookup?_setEntry_self hlm
    · rw [changed_commit_cancel hnd hact] at hc
      cases hc
  · rw [hlm] at hl2
    cases hl2

theorem lookup?_of_mem_idsNodup {jl : JobList} {id : String} {v : Dict × Option Nat}
    (hnd : jl.job_ids.Nodup) (hmem : (id, v) ∈ jl.entries) :
    jl.lookup? id = some v := by
  rcases jl with ⟨entries⟩
  simp only [JobList.lookup?, JobList.job_ids] at *
  induction entries with
  | nil => simp at hmem
  | cons e rest ih =>
    simp only [List.map_cons, List.nodup_cons] at hnd
    rcases List.mem_cons.mp hmem with rfl | hmem'
    · simp [entriesLookup?]
    · have hne : e.1 ≠ id := by
        intro hk
        exact hnd.1 (hk ▸ (List.mem_map.mpr ⟨(id, v), hmem', rfl⟩))
      simp only [entriesLookup?, if_neg hne]
      exact ih hnd.2 hmem'

theorem dget?_dunion_of_right {c j : Dict} {k : String} {v : Value}
    (h : dget? j k = some v) : dget? (dunion c j) k = some v := by
  rw [dget?_dunion]
  rcases dget? c k with _ | w <;> simp [h]

theorem dget?_dunion_of_right_none {c j : Dict} {k : String}
    (h : dget? j k = Option.none) : dget? (dunion c j) k = dget? c k := by
  rw [dget?_dunion]
  rcases dget? c k with _ | w <;> simp [h]

theorem updateWith_as_update {jl jl' : JobList} {jobs : List Dict} {ts : Option Nat}
    (h : jl.updateWith jobs ts = .ok jl') :
    jl.update (jobs.map (fun j => (j, ts))) = .ok jl' := h

theorem updateWith_not_mem_job_ids {jl jl' : JobList} {jobs : List Dict}
    {ts : Option Nat} {id : String} (h : jl.updateWith jobs ts = .ok jl')
    (hids : id ∉ jobIdsOf jobs) (hid : id ∉ jl.job_ids) : id ∉ jl'.job_ids := by
  apply update_not_mem_job_ids (updateWith_as_update h) _ hid
  rintro ⟨pj, pt⟩ hp hok
  simp only [List.mem_map] at hp
  rcases hp with ⟨j0, hj0, hj0e⟩
  cases hj0e
  exact hids (jobIdsOf_mem_intro hj0 (getJobId_ok_iff.mp hok))

theorem mem_unique_of_idsNodup {jl : JobList} {id : String} {v w : Dict × Option Nat}
    (hnd : jl.job_ids.Nodup) (hv : (id, v) ∈ jl.entries) (hw : (id, w) ∈ jl.entries) :
    v = w := by
  have h1 := lookup?_of_mem_idsNodup hnd hv
  have h2 := lookup?_of_mem_idsNodup hnd hw
  rw [h1] at h2
  exact Option.some.inj h2

/-! ### Claim theorems -/

/-- C2: merging a draft under an existing id stores the field-level union
(draft overrides the keys it defines, keys only in the current record are
preserved) and moves the timestamp to the merge timestamp exactly when that
union differs from the prior record; a draft whose items are all already
present leaves both the content and the timestamp untouched. -/
theorem c2_merge_union_iff_timestamp {jl jl' : JobList} {id : String}
    {cur draft : Dict} {cts : Option Nat} {ts : Nat}
    (hlook : jl.lookup? id = some (cur, cts))
    (hdraft : getJobId draft = .ok id)
    (hndc : (dkeys cur).Nodup) (hndd : (dkeys draft).Nodup)
    (h : jl.update1 draft (some ts) = .ok jl') :
    jl'.lookup? id =
      some (if dunion cur draft = cur then (cur, cts) else (dunion cur draft, some ts))
    ∧ (dunion cur draft = cur ↔ changed cur draft = false) := by
  have hiff : changed cur draft = true ↔ dunion cur draft ≠ cur :=
    changed_iff_dunion_ne hndc hndd
  have hiff2 : dunion cur draft = cur ↔ changed cur draft = false := by
    constructor
    · intro hd
      rcases hb : changed cur draft with _ | _
      · rfl
      · exact absurd hd (hiff.mp hb)
    · intro hc
      exact dunion_eq_self_of_sub hndc (changed_eq_false_iff.mp hc)
  refine ⟨?_, hiff2⟩
  rcases update1_ok_cases h with ⟨jid, hjid, hcase⟩
  have hgj : id = jid := by
    rw [hdraft] at hjid
    exact Except.ok.inj hjid
  subst hgj
  rcases hcase with ⟨cur2, cts2, hl2, hbr⟩ | ⟨hl2, _⟩
  · rw [hlook] at hl2
    obtain ⟨hc2, ht2⟩ := some_pair_inj hl2
    subst hc2
    subst ht2
    rcases hbr with ⟨hc, _, rfl⟩ | ⟨hc, rfl⟩
    · rw [if_neg (hiff.mp hc)]
      exact lookup?_setEntry_self hlook
    · rw [if_pos (hiff2.mpr hc)]
      exact hlook
  · rw [hlook] at hl2
    cases hl2

/-- Witness for C2 at a concrete table: merging a draft that adds a State
field advances the timestamp to the merge timestamp and stores the union. -/
theorem c2_merge_union_iff_timestamp_witness :
    (JobList.lookup? ⟨[("1", [("JobId", .str "1")], some 0)]⟩ "1"
        = some ([("JobId", .str "1")], some 0))
    ∧ ((JobList.mk [("1", ([("JobId", .str "1")], some 0))]).update1
        [("JobId", .str "1"), ("State", .str "RUNNING")] (some 5)
        = .ok ⟨[("1", [("JobId", .str "1"), ("State", .str "RUNNING")], some 5)]⟩)
    ∧ ((JobList.lookup? ⟨[("1", [("JobId", .str "1"), ("State", .str "RUNNING")], some 5)]⟩ "1"
        = some (if dunion [("JobId", .str "1")] [("JobId", .str "1"), ("State", .str "RUNNING")]
              = [("JobId", .str "1")]
            then ([("JobId", .str "1")], some 0)
            else (dunion [("JobId", .str "1")] [("JobId", .str "1"), ("State", .str "RUNNING")],
              some 5)))
        ∧ (dunion [("JobId", .str "1")] [("JobId", .str "1"), ("State", .str "RUNNING")]
              = [("JobId", .str "1")]
          ↔ changed [("JobId", .str "1")] [("JobId", .str "1"), ("State", .str "RUNNING")]
              = false)) :=
  ⟨rfl, rfl,
    @c2_merge_union_iff_timestamp ⟨[("1", [("JobId", .str "1")], some 0)]⟩
      ⟨[("1", [("JobId", .str "1"), ("State", .str "RUNNING")], some 5)]⟩ "1"
      [("JobId", .str "1")] [("JobId", .str "1"), ("State", .str "RUNNING")]
      (some 0) 5 rfl rfl (by decide) (by decide) rfl⟩

/-- C4 counterexample: looking up an id absent from the table raises
KeyError (the Python code indexes the dict directly), it does not return a
not-found result. -/
theorem c4_get_absent_raises :
    JobList.get ⟨[]⟩ "1" = .error "KeyError"
    ∧ State.get_job ⟨0, ⟨[]⟩⟩ "1" = .error "KeyError" := ⟨rfl, rfl⟩

/-- C4 amended: for every id absent from the table, the point lookup raises
a KeyError rather than returning a normal empty result. -/
theorem c4_absent_lookup_is_error :
    ∀ (jl : JobList) (id : String), id ∉ jl.job_ids → jl.get id = .error "KeyError" := by
  intro jl id hid
  rw [JobList.get, lookup?_eq_none_iff.mpr hid]

/-- Witness for the amended C4 at a concrete table. -/
theorem c4_absent_lookup_is_error_witness :
    ("1" ∉ JobList.job_ids ⟨[("2", [("JobId", .str "2")], some 0)]⟩)
    ∧ JobList.get ⟨[("2", [("JobId", .str "2")], some 0)]⟩ "1" = .error "KeyError" :=
  ⟨by decide, c4_absent_lookup_is_error ⟨[("2", [("JobId", .str "2")], some 0)]⟩ "1" (by decide)⟩

/-- C5: evaluation of the submission-log source at a failing input.  The
non-array branch of jobs_from_cli_args builds the StdErr path from the
StdOut template (src/dashboard.py line 274), so a logged submission with
distinct stdout and stderr templates yields a Job whose StdErr is the
substituted stdout template, not the substituted stderr template. -/
theorem c5_single_job_stderr_uses_stdout_template :
    jobs_from_cli_args [("JobId", .str "7")] ["-o", "out_%A.txt", "-e", "err_%A.txt"]
      = .ok [[("JobId", .str "7"), ("StdOut", .str "out_7.txt"),
              ("StdErr", .str "out_7.txt")]]
    ∧ dget? [("JobId", .str "7"), ("StdOut", .str "out_7.txt"),
              ("StdErr", .str "out_7.txt")] "StdErr"
        ≠ some (.str "err_7.txt") :=
  ⟨rfl, by decide⟩

/-- C1 counterexample: a job whose stored timestamp exceeds the request
timestamp but whose JobName matched no classification pattern (here: no
JobName at all) is omitted from the delta response, so the delta is not
exactly the set of jobs with timestamp greater than T. -/
theorem c1_delta_drops_unclassified :
    list_jobs_delta ⟨[("1", [("JobId", .str "1")], some 5)]⟩ 3 = []
    ∧ (3 : Nat) < 5 := ⟨rfl, by decide⟩

/-- C1 amended: the delta response contains exactly the jobs whose stored
timestamp is strictly greater than T and whose name-based classification
matched (the route additionally filters on the derived language and
collection attributes). -/
theorem c1_delta_exact_for_classified :
    ∀ (jl : JobList) (since : Nat) (job : Dict),
      job ∈ list_jobs_delta jl since ↔
        ∃ id t, (id, job, some t) ∈ jl.entries ∧ since < t ∧ (classify job).isSome := by
  intro jl since job
  simp only [list_jobs_delta, List.mem_filterMap]
  constructor
  · rintro ⟨⟨id, jd, tso⟩, he, hsome⟩
    cases tso with
    | none => simp at hsome
    | some t =>
      simp only at hsome
      by_cases hcond : since < t ∧ (classify jd).isSome
      · rw [if_pos hcond] at hsome
        obtain rfl := Option.some.inj hsome
        exact ⟨id, t, he, hcond.1, hcond.2⟩
      · rw [if_neg hcond] at hsome
        cases hsome
  · rintro ⟨id, t, he, h1, h2⟩
    exact ⟨(id, job, some t), he, by simp [h1, h2]⟩

theorem except_ok_bind {α β : Type} {a : α} {f : α → Except String β} :
    ((Except.ok a : Except String α) >>= f) = f a := rfl

theorem except_error_bind {α β : Type} {e : String} {f : α → Except String β} :
    ((Except.error e : Except String α) >>= f) = .error e := rfl

/-- C3 counterexample: a live-listing tool failure during a refresh is not
treated as transient — State.update has no handler, so the error propagates
out of the refresh and the submission-log contribution already merged into
the scratch table that cycle is discarded rather than committed. -/
theorem c3_live_failure_aborts_refresh :
    State.update ⟨0, ⟨[]⟩⟩
      (.ok [[("JobId", .str "1"), ("State", .str "PENDING")]])
      (fun _ => .ok [])
      (.error "CalledProcessError: squeue returned non-zero exit status")
      7
      = .error "CalledProcessError: squeue returned non-zero exit status" := rfl

/-- C3 amended: when the first two sources succeed and the live-snapshot
source fails, the refresh returns that source error unchanged (nothing is
committed to the long-lived table, which in particular retains its prior
data, and the cycle's other contributions are lost with the error). -/
theorem c3_live_failure_propagates :
    ∀ (st : State) (s : List Dict) (acctSrc : List String → Except String (List Dict))
      (e : String) (now : Nat) (jl1 jl2 : JobList) (a : List Dict),
      (st.jobs.filter isActiveJob Option.none).updateWith s Option.none = .ok jl1 →
      acctSrc jl1.job_ids = .ok a →
      jl1.updateWith a Option.none = .ok jl2 →
      State.update st (.ok s) acctSrc (.error e) now = .error e := by
  intro st s acct e now jl1 jl2 a h1 h2 h3
  unfold State.update
  simp only [except_ok_bind]
  rw [h1]
  simp only [except_ok_bind]
  rw [h2]
  simp only [except_ok_bind]
  rw [h3]
  simp only [except_ok_bind, except_error_bind]

/-- Witness for the amended C3 at a concrete engine state. -/
theorem c3_live_failure_propagates_witness :
    ((JobList.filter (JobList.mk []) isActiveJob Option.none).updateWith []
        Option.none = .ok ⟨[]⟩)
    ∧ State.update ⟨0, ⟨[]⟩⟩ (.ok []) (fun _ => .ok [])
        (.error "squeue unavailable") 3 = .error "squeue unavailable" :=
  ⟨rfl, c3_live_failure_propagates ⟨0, ⟨[]⟩⟩ [] (fun _ => .ok []) "squeue unavailable"
    3 ⟨[]⟩ ⟨[]⟩ [] rfl rfl rfl⟩

/-- C9 counterexample: the id scope handed to the accounting source is
computed after the submission-log merge, so a job stored with terminal
State COMPLETED whose id reappears in the submission log this cycle is
included in the scope (the probing accounting source below fails exactly
when the terminal id is in the scope it receives, and the refresh returns
that failure). -/
theorem c9_terminal_id_rescoped_via_schedule_log :
    State.update ⟨0, ⟨[("5", [("JobId", .str "5"), ("State", .str "COMPLETED")], some 1)]⟩⟩
      (.ok [[("JobId", .str "5"), ("State", .str "PENDING")]])
      (fun scope => if "5" ∈ scope then .error "terminal id in history scope" else .ok [])
      (.ok []) 9
      = .error "terminal id in history scope"
    ∧ dget? [("JobId", .str "5"), ("State", .str "COMPLETED")] "State"
        = some (.str "COMPLETED") := ⟨rfl, rfl⟩

/-- C9 amended: a job whose stored State is terminal at the start of the
cycle is excluded from the accounting-source id scope unless the
submission-log source yields a job with the same id that cycle: the scope
is the id set of the active-filtered table merged with the new
submission-log drafts. -/
theorem c9_terminal_excluded_unless_resubmitted :
    ∀ (st : State) (sched : List Dict) (id : String) (cur : Dict) (ts : Option Nat)
      (jl1 : JobList),
      st.jobs.job_ids.Nodup →
      (id, cur, ts) ∈ st.jobs.entries →
      isActiveJob cur = false →
      id ∉ jobIdsOf sched →
      (st.jobs.filter isActiveJob Option.none).updateWith sched Option.none = .ok jl1 →
      id ∉ jl1.job_ids := by
  intro st sched id cur ts jl1 hnd hmem hterm hsched h1
  have hidf : id ∉ (st.jobs.filter isActiveJob Option.none).job_ids := by
    intro hin
    obtain ⟨e, he, he1⟩ := List.mem_map.mp hin
    rw [filter_entries_shape] at he
    have hee : e ∈ st.jobs.entries := List.mem_of_mem_filter he
    have hop : isActiveJob e.2.1 = true := by
      simpa using List.of_mem_filter he
    have heid : (id, e.2) ∈ st.jobs.entries := by
      rcases e with ⟨e1, e2⟩
      simp only at he1
      rw [← he1]
      exact hee
    have := mem_unique_of_idsNodup hnd heid hmem
    rw [this] at hop
    simp only at hop
    rw [hterm] at hop
    cases hop
  exact updateWith_not_mem_job_ids h1 hsched hidf

/-- Witness for the amended C9: a COMPLETED job is absent from the scope
table after an empty submission-log merge. -/
theorem c9_terminal_excluded_unless_resubmitted_witness :
    ((("5", ([("JobId", .str "5"), ("State", .str "COMPLETED")] : Dict),
        (some 1 : Option Nat)))
      ∈ (JobList.mk [("5", [("JobId", .str "5"), ("State", .str "COMPLETED")], some 1)]).entries)
    ∧ ("5" ∉ JobList.job_ids ⟨[]⟩) :=
  ⟨by decide,
    c9_terminal_excluded_unless_resubmitted
      ⟨0, ⟨[("5", [("JobId", .str "5"), ("State", .str "COMPLETED")], some 1)]⟩⟩
      [] "5" [("JobId", .str "5"), ("State", .str "COMPLETED")] (some 1) ⟨[]⟩
      (by decide) (by decide) (by decide) (by decide) rfl⟩

theorem except_bind_pure {α : Type} {x : Except String α} :
    (x >>= fun a => Except.ok a) = x := by
  cases x <;> rfl

theorem accounting_row_skip {headers : List String} {r : String} {sid : String}
    (h1 : dget? (rowDict headers r) "JobId" = some (.str sid))
    (h2 : parseIdShape sid = Option.none) :
    accounting_row headers r = .ok [] := by
  simp only [accounting_row, h1, except_ok_bind, h2]

theorem accounting_rows_skip {headers : List String} {r : String} {sid : String}
    (pre post : List String)
    (h1 : dget? (rowDict headers r) "JobId" = some (.str sid))
    (h2 : parseIdShape sid = Option.none) :
    accounting_rows headers (pre ++ r :: post) = accounting_rows headers (pre ++ post) := by
  induction pre with
  | nil =>
    simp only [List.nil_append, accounting_rows,
      accounting_row_skip h1 h2, except_ok_bind, List.nil_append]
    exact except_bind_pure
  | cons l pre' ih =>
    simp only [List.cons_append, accounting_rows, List.append_eq]
    rw [ih]

theorem current_jobs_row_keyerror {headers : List String} {r : String}
    (h : dget? (rowDict headers r) "ArrayTaskId" = Option.none) :
    current_jobs_row headers r = .error "KeyError: ArrayTaskId" := by
  simp only [current_jobs_row, h]

theorem current_jobs_rows_abort {headers : List String} {r : String}
    (pre post : List String)
    (hok : ∃ l, current_jobs_rows headers pre = .ok l)
    (h : dget? (rowDict headers r) "ArrayTaskId" = Option.none) :
    current_jobs_rows headers (pre ++ r :: post) = .error "KeyError: ArrayTaskId" := by
  induction pre with
  | nil =>
    simp only [List.nil_append, current_jobs_rows,
      current_jobs_row_keyerror h, except_error_bind]
  | cons l pre' ih =>
    rcases hok with ⟨lst, hlst⟩
    simp only [current_jobs_rows] at hlst
    rcases except_bind_ok.mp hlst with ⟨js, hjs, hrest⟩
    rcases except_bind_ok.mp hrest with ⟨rest, hrest', _⟩
    simp only [List.cons_append, current_jobs_rows, hjs, except_ok_bind,
      List.append_eq]
    rw [ih ⟨rest, hrest'⟩]
    rfl

/-- C7 counterexample: one uninterpretable row in the live listing (a row
whose dict carries no ArrayTaskId field after the header zip) aborts the
whole response with an error, losing the preceding well-formed row, which
alone would have been yielded. -/
theorem c7_bad_live_row_aborts_response :
    current_jobs ["JOBID|ARRAY_TASK_ID|NAME", "1|N/A|ok", "2"]
      = .error "KeyError: ArrayTaskId"
    ∧ current_jobs ["JOBID|ARRAY_TASK_ID|NAME", "1|N/A|ok"]
      = .ok [[("JobId", .str "1"), ("JobName", .str "ok")]] := ⟨rfl, rfl⟩

/-- C7 amended: the two adapters degrade differently.  In the accounting
source a row whose id fails the shape pattern is skipped and the remaining
rows are still yielded; in the live listing a row with no interpretable
array-task field raises (KeyError), aborting the entire response for the
cycle. -/
theorem c7_acct_skips_live_aborts :
    (∀ (headers : List String) (pre post : List String) (r : String) (sid : String),
      dget? (rowDict headers r) "JobId" = some (.str sid) →
      parseIdShape sid = Option.none →
      accounting_rows headers (pre ++ r :: post) = accounting_rows headers (pre ++ post))
    ∧ (∀ (headers : List String) (pre post : List String) (r : String),
      (∃ l, current_jobs_rows headers pre = .ok l) →
      dget? (rowDict headers r) "ArrayTaskId" = Option.none →
      current_jobs_rows headers (pre ++ r :: post) = .error "KeyError: ArrayTaskId") :=
  ⟨fun _ pre post _ _ h1 h2 => accounting_rows_skip pre post h1 h2,
   fun _ pre post _ hok h => current_jobs_rows_abort pre post hok h⟩

/-- Witness for the amended C7 at concrete listings. -/
theorem c7_acct_skips_live_aborts_witness :
    (accounting_rows ["JobId", "State"] ("500.extern|COMPLETED" :: "7|COMPLETED" :: [])
        = accounting_rows ["JobId", "State"] ("7|COMPLETED" :: []))
    ∧ (current_jobs_rows ["JobId", "ArrayTaskId"] ("1|N/A" :: "2" :: [])
        = .error "KeyError: ArrayTaskId") :=
  ⟨c7_acct_skips_live_aborts.1 ["JobId", "State"] [] ["7|COMPLETED"]
      "500.extern|COMPLETED" "500.extern" rfl rfl,
   c7_acct_skips_live_aborts.2 ["JobId", "ArrayTaskId"] ["1|N/A"] [] "2"
      ⟨[[("JobId", .str "1")]], rfl⟩ rfl⟩

/-- The Job produced for task t of the array expansion of a logged
submission with job id 100 (the loop body of src/dashboard.py
lines 277-285). -/
def c8job (j : Dict) (so se : String) (t : Nat) : Dict :=
  dunion j (arrayPatch (.str "100") "100" so se t)

theorem expandOne_eval (t : Nat) {j : Dict} {so se : String}
    (hjid : dget? j "JobId" = some (.str "100"))
    (hso : pyGetStrD j "StdOut" "" = .ok so)
    (hse : pyGetStrD j "StdErr" "" = .ok se)
    (ht : toString t ≠ "N/A") :
    expandOne j t = .ok (c8job j so se t) := by
  simp only [expandOne, hjid, except_ok_bind, hso, hse]
  apply jobCheck_ok_iff.mpr
  constructor
  · have hv : dget? (arrayPatch (.str "100") "100" so se t) "ArrayTaskId"
        = some (.str (toString t)) := rfl
    rw [dget?_dunion_of_right hv]
    intro hc
    apply ht
    have hcc := Option.some.inj hc
    exact Value.str.inj hcc
  · rfl

/-- C8: a logged submission whose parsed argument list carries array spec
1-3 and whose draft id is 100 yields exactly the three Jobs with composite
ids 100_1, 100_2 and 100_3, each with the job-id and task-id macros
substituted per task in its StdOut and StdErr paths, and all three sharing
the Command of the scanned draft. -/
theorem c8_array_expansion :
    ∀ (job : Dict) (args : List String) (j : Dict) (so se : String),
      scan_cli_args job Option.none (normalize_cli_args args) = .ok (j, some "1-3") →
      dget? j "JobId" = some (.str "100") →
      pyGetStrD j "StdOut" "" = .ok so →
      pyGetStrD j "StdErr" "" = .ok se →
      jobs_from_cli_args job args
          = .ok [c8job j so se 1, c8job j so se 2, c8job j so se 3]
      ∧ dget? (c8job j so se 1) "JobId" = some (.str "100_1")
      ∧ dget? (c8job j so se 2) "JobId" = some (.str "100_2")
      ∧ dget? (c8job j so se 3) "JobId" = some (.str "100_3")
      ∧ dget? (c8job j so se 1) "Command" = dget? j "Command"
      ∧ dget? (c8job j so se 2) "Command" = dget? j "Command"
      ∧ dget? (c8job j so se 3) "Command" = dget? j "Command" := by
  intro job args j so se hscan hjid hso hse
  refine ⟨?_, dget?_dunion_of_right rfl, dget?_dunion_of_right rfl,
    dget?_dunion_of_right rfl, dget?_dunion_of_right_none rfl,
    dget?_dunion_of_right_none rfl, dget?_dunion_of_right_none rfl⟩
  have he1 := expandOne_eval 1 hjid hso hse (by decide)
  have he2 := expandOne_eval 2 hjid hso hse (by decide)
  have he3 := expandOne_eval 3 hjid hso hse (by decide)
  unfold jobs_from_cli_args
  rw [hscan]
  simp only [except_ok_bind]
  rw [if_neg (by decide)]
  have hpj : parse_job_arrays ((some "1-3").getD "") = .ok [1, 2, 3] := rfl
  rw [hpj]
  simp only [except_ok_bind, expandArrayJobs, he1, he2, he3]

/-- Witness for C8 at a concrete submission-log argument list. -/
theorem c8_array_expansion_witness :
    (scan_cli_args [("JobId", .str "100")] Option.none
        (normalize_cli_args ["-a", "1-3", "-o", "o_%A_%a", "-e", "e_%A_%a"])
      = .ok ([("JobId", .str "100"), ("StdOut", .str "o_%A_%a"),
              ("StdErr", .str "e_%A_%a")], some "1-3"))
    ∧ (jobs_from_cli_args [("JobId", .str "100")]
          ["-a", "1-3", "-o", "o_%A_%a", "-e", "e_%A_%a"]
        = .ok [c8job [("JobId", .str "100"), ("StdOut", .str "o_%A_%a"),
                  ("StdErr", .str "e_%A_%a")] "o_%A_%a" "e_%A_%a" 1,
               c8job [("JobId", .str "100"), ("StdOut", .str "o_%A_%a"),
                  ("StdErr", .str "e_%A_%a")] "o_%A_%a" "e_%A_%a" 2,
               c8job [("JobId", .str "100"), ("StdOut", .str "o_%A_%a"),
                  ("StdErr", .str "e_%A_%a")] "o_%A_%a" "e_%A_%a" 3]) :=
  ⟨rfl,
    (c8_array_expansion [("JobId", .str "100")]
      ["-a", "1-3", "-o", "o_%A_%a", "-e", "e_%A_%a"]
      [("JobId", .str "100"), ("StdOut", .str "o_%A_%a"), ("StdErr", .str "e_%A_%a")]
      "o_%A_%a" "e_%A_%a" rfl rfl rfl rfl).1⟩

/-- C6: in a refresh cycle whose sources all respond, a job that is active
(or State-free) at the start of the cycle, whose record carries its own id,
and whose id is reported by none of the three sources, ends the cycle with
stored State CANCELLED and the cycle timestamp; and no id that any source
reported is ever given a synthesized cancellation draft. -/
theorem c6_dead_job_inference :
    ∀ (st : State) (schedL liveL : List Dict)
      (acctF : List String → Except String (List Dict))
      (now : Nat) (st' : State) (scratch : JobList)
      (id : String) (cur : Dict) (ts0 : Option Nat),
      State.update st (.ok schedL) acctF (.ok liveL) now = .ok (st', scratch) →
      (id, cur, ts0) ∈ st.jobs.entries →
      isActiveJob cur = true →
      dget? cur "JobId" = some (.str id) →
      (dkeys cur).Nodup →
      st.jobs.job_ids.Nodup →
      WFids st.jobs →
      id ∉ jobIdsOf schedL →
      (∀ sc l, acctF sc = .ok l → id ∉ jobIdsOf l) →
      id ∉ jobIdsOf liveL →
      (∃ j', st'.jobs.lookup? id = some (j', some now)
        ∧ dget? j' "State" = some (.str "CANCELLED"))
      ∧ (∀ (jlx : JobList) (seen : List String) (d : Dict),
          id ∈ seen → d ∈ deadJobs jlx seen → getJobId d ≠ .ok id) := by
  intro st schedL liveL acctF now st' scratch id cur ts0 h hmem hact hcurJ hndcur
    hnodSt hwfSt hsched hacct hlive
  refine ⟨?_, fun jlx seen d hs hd => deadJobs_not_relevant_of_seen hs hd⟩
  unfold State.update at h
  rcases except_bind_ok.mp h with ⟨sched, hs, h1⟩
  have hseq : schedL = sched := Except.ok.inj hs
  subst hseq
  rcases except_bind_ok.mp h1 with ⟨active1, hA1, h2⟩
  rcases except_bind_ok.mp h2 with ⟨acct, hAcc, h3⟩
  rcases except_bind_ok.mp h3 with ⟨active2, hA2, h4⟩
  rcases except_bind_ok.mp h4 with ⟨live, hl, h5⟩
  have hleq : liveL = live := Except.ok.inj hl
  subst hleq
  rcases except_bind_ok.mp h5 with ⟨active3, hA3, h6⟩
  rcases except_bind_ok.mp h6 with ⟨active4, hA4, h7⟩
  rcases except_bind_ok.mp h7 with ⟨jobs2, hC, h8⟩
  have hfin := Except.ok.inj h8
  have hstj : st'.jobs = jobs2 := by
    have : st' = { last_update := now, jobs := jobs2 } :=
      (congrArg Prod.fst hfin).symm
    rw [this]
  -- the long-lived table and the active scratch both hold the entry
  have hstlook : st.jobs.lookup? id = some (cur, ts0) :=
    lookup?_of_mem_idsNodup hnodSt hmem
  have hA0look : (st.jobs.filter isActiveJob Option.none).lookup? id
      = some (cur, ts0) := lookup?_filter_of_mem hnodSt hmem hact
  have hnod0 : (st.jobs.filter isActiveJob Option.none).job_ids.Nodup :=
    idsNodup_filter hnodSt
  have hwf0 : WFids (st.jobs.filter isActiveJob Option.none) :=
    WFids_filter hwfSt
  -- the three source merges do not touch the entry
  have hA1look : active1.lookup? id = some (cur, ts0) := by
    rw [updateWith_irrelevant_of_ids hA1 hsched]
    exact hA0look
  have hnod1 := idsNodup_update (updateWith_as_update hA1) hnod0
  have hwf1 := WFids_update (updateWith_as_update hA1) hwf0
  have hacctids : id ∉ jobIdsOf acct := hacct _ _ hAcc
  have hA2look : active2.lookup? id = some (cur, ts0) := by
    rw [updateWith_irrelevant_of_ids hA2 hacctids]
    exact hA1look
  have hnod2 := idsNodup_update (updateWith_as_update hA2) hnod1
  have hwf2 := WFids_update (updateWith_as_update hA2) hwf1
  have hA3look : active3.lookup? id = some (cur, ts0) := by
    rw [updateWith_irrelevant_of_ids hA3 hlive]
    exact hA2look
  have hnod3 := idsNodup_update (updateWith_as_update hA3) hnod2
  have hwf3 := WFids_update (updateWith_as_update hA3) hwf2
  -- the id was seen by no source, so its cancellation draft is synthesized
  have hseen : id ∉ jobIdsOf schedL ++ jobIdsOf acct ++ jobIdsOf liveL := by
    simp only [List.mem_append]
    rintro ((hx | hx) | hx)
    · exact hsched hx
    · exact hacctids hx
    · exact hlive hx
  have hdead : cancelledDraft id
      ∈ deadJobs active3 (jobIdsOf schedL ++ jobIdsOf acct ++ jobIdsOf liveL) :=
    mem_deadJobs_intro (lookup?_some_mem hA3look) hcurJ hseen
  have hall4 : ∀ p ∈ (deadJobs active3
        (jobIdsOf schedL ++ jobIdsOf acct ++ jobIdsOf liveL)).map
          (fun j => (j, (Option.none : Option Nat))),
      getJobId p.1 = .ok id → p.1 = cancelledDraft id ∧ p.2 = Option.none := by
    rintro ⟨pj, pt⟩ hp hok
    rcases List.mem_map.mp hp with ⟨d, hd, he⟩
    cases he
    exact ⟨(deadJobs_relevant hd hok).1, rfl⟩
  have hmem4 : (cancelledDraft id, (Option.none : Option Nat))
      ∈ (deadJobs active3
          (jobIdsOf schedL ++ jobIdsOf acct ++ jobIdsOf liveL)).map
        (fun j => (j, (Option.none : Option Nat))) :=
    List.mem_map.mpr ⟨cancelledDraft id, hdead, rfl⟩
  have hA4look : active4.lookup? id = some (dunion cur (cancelledDraft id), ts0) :=
    update_cancel_phase (updateWith_as_update hA4) hA3look hndcur hact hall4 hmem4
  have hnod4 := idsNodup_update (updateWith_as_update hA4) hnod3
  have hwf4 := WFids_update (updateWith_as_update hA4) hwf3
  -- the commit merges the cancelled scratch record into the long-lived table
  rcases entries_split_of_lookup hnod4 hA4look with ⟨preE, postE, hsplitE, hpreE, hpostE⟩
  have hC' : st.jobs.update (active4.entries.map (fun e => (e.2.1, some now)))
      = .ok jobs2 := hC
  rw [hsplitE, List.map_append, List.map_cons] at hC'
  have hpre' : ∀ p ∈ preE.map (fun e => (e.2.1, some now)), getJobId p.1 ≠ .ok id := by
    rintro ⟨pj, pt⟩ hp hok
    rcases List.mem_map.mp hp with ⟨e, he, hee⟩
    cases hee
    have hewf : getJobId e.2.1 = .ok e.1 := getJobId_ok_iff.mpr
      (hwf4 e (hsplitE ▸ List.mem_append_left _ he))
    rw [hewf] at hok
    exact hpreE e he (Except.ok.inj hok)
  have hpost' : ∀ p ∈ postE.map (fun e => (e.2.1, some now)), getJobId p.1 ≠ .ok id := by
    rintro ⟨pj, pt⟩ hp hok
    rcases List.mem_map.mp hp with ⟨e, he, hee⟩
    cases hee
    have hewf : getJobId e.2.1 = .ok e.1 := getJobId_ok_iff.mpr
      (hwf4 e (hsplitE ▸ List.mem_append_right _ (List.mem_cons_of_mem _ he)))
    rw [hewf] at hok
    exact hpostE e he (Except.ok.inj hok)
  have hfinal := update_commit_cancel hC' hpre' hpost' hstlook hndcur hact
  refine ⟨dunion cur (dunion cur (cancelledDraft id)), ?_, ?_⟩
  · rw [hstj]
    exact hfinal
  · exact dget?_dunion_of_right dget?_dunion_state_cancel

/-- Witness for C6: a RUNNING job reported by no source in a concrete
refresh cycle is stored as CANCELLED with the cycle timestamp. -/
theorem c6_dead_job_inference_witness :
    (State.update ⟨0, ⟨[("1", [("JobId", .str "1"), ("State", .str "RUNNING")], some 0)]⟩⟩
        (.ok []) (fun _ => .ok []) (.ok []) 2
      = .ok (⟨2, ⟨[("1", [("JobId", .str "1"), ("State", .str "CANCELLED")], some 2)]⟩⟩,
             ⟨[("1", [("JobId", .str "1"), ("State", .str "CANCELLED")], some 0)]⟩))
    ∧ ((∃ j', (State.mk 2
          ⟨[("1", [("JobId", .str "1"), ("State", .str "CANCELLED")], some 2)]⟩).jobs.lookup? "1"
            = some (j', some 2)
          ∧ dget? j' "State" = some (.str "CANCELLED"))
      ∧ (∀ (jlx : JobList) (seen : List String) (d : Dict),
          "1" ∈ seen → d ∈ deadJobs jlx seen → getJobId d ≠ .ok "1")) :=
  ⟨rfl,
    c6_dead_job_inference
      ⟨0, ⟨[("1", [("JobId", .str "1"), ("State", .str "RUNNING")], some 0)]⟩⟩
      [] [] (fun _ => .ok []) 2
      ⟨2, ⟨[("1", [("JobId", .str "1"), ("State", .str "CANCELLED")], some 2)]⟩⟩
      ⟨[("1", [("JobId", .str "1"), ("State", .str "CANCELLED")], some 0)]⟩
      "1" [("JobId", .str "1"), ("State", .str "RUNNING")] (some 0)
      rfl (by decide) (by decide) rfl (by decide) (by decide)
      (by unfold WFids; decide) (by decide)
      (fun sc l hh => by
        have he := Except.ok.inj hh
        subst he
        decide)
      (by decide)⟩
